import Mathlib

/-!
Verification development for the Scan2Go meal-voucher application.

The definitions below are a shallow embedding of the server code:
* `server/models/MealRecord.js` (the `MealRecord` and `Student` mongoose
  schemas, their defaults, the compound unique index and the pre-save hooks),
* `server/routes/verification.js` (`POST /verify`),
* `server/routes/admin.js` (`POST /upload-csv`: CSV row processing,
  vendor resolution, student upsert and the deactivation sweep),
* `server/routes/students.js` (`PUT /students/:id`).

Machine conventions: document ids are `Nat`; instants are `Nat`
milliseconds since the epoch, and the server-local "calendar day" of an
instant is obtained by zeroing the time of day (`dayStart`), mirroring
`setHours(0, 0, 0, 0)` / `tomorrow = today + 1 day` in the routes.
-/

set_option autoImplicit false

namespace Scan2Go

/-- Milliseconds per calendar day. -/
def msPerDay : Nat := 86400000

/-- Midnight at the start of the calendar day containing instant `t`
(`today.setHours(0,0,0,0)` in `verification.js`). -/
def dayStart (t : Nat) : Nat := t / msPerDay * msPerDay

/-- `toLowerCase()` over the character list (kernel-computable version of
`String.toLower`). -/
def lowerStr (s : String) : String := String.mk (s.data.map Char.toLower)

/-- `trim()`: strip leading and trailing whitespace. -/
def trimStr (s : String) : String :=
  String.mk (((s.data.dropWhile Char.isWhitespace).reverse.dropWhile Char.isWhitespace).reverse)

/-- `vendor.name.trim().toLowerCase()`: the normalized lookup key used by
the vendor map in `admin.js`. -/
def normKey (s : String) : String := lowerStr (trimStr s)

/-- `replace(/\s+/g, '')`: drop every whitespace character. -/
def stripSpaces (s : String) : String := String.mk (s.data.filter (fun c => !c.isWhitespace))

/-- `pat` occurs as a contiguous segment of `l`. -/
def segIn (pat : List Char) : List Char → Bool
  | [] => pat.isEmpty
  | c :: cs => List.isPrefixOf pat (c :: cs) || segIn pat cs

/-- Case-insensitive substring test: the effect of
`Vendor.findOne({ name: { $regex: new RegExp(escaped, 'i') } })`, where the
pattern is the regex-escaped literal vendor name. -/
def containsCI (hay pat : String) : Bool :=
  if pat = "" then true
  else segIn (lowerStr pat).data (lowerStr hay).data

/-- `Vendor` documents (`server/models/Vendor.js`): name, location,
active flag (`isActive` defaults to `true`). -/
structure Vendor where
  vid : Nat
  name : String
  location : String
  isActive : Bool
deriving DecidableEq

/-- The `lastMealClaimed` subdocument of a `Student`. -/
structure LastMeal where
  date : Nat
  vendor : Nat
deriving DecidableEq

/-- One entry of a `Student`'s `mealHistory` array. -/
structure HistEntry where
  date : Nat
  vendor : Nat
  claimed : Bool
deriving DecidableEq

/-- `Student` documents (`server/models/MealRecord.js`, second schema).
`vendorLocation` is assigned by `admin.js` but is not a schema field, so
mongoose drops it; it is therefore not modelled. -/
structure Student where
  sid : Nat
  name : String
  email : String
  rollNumber : String
  vendor : Nat
  isActive : Bool
  qrCode : String
  lastMealClaimed : Option LastMeal
  mealHistory : List HistEntry
deriving DecidableEq

/-- `MealRecord` documents. `date` is the raw instant stored by the route
(`date: new Date()`), not a day-granular value. -/
structure MealRecord where
  student : Nat
  vendor : Nat
  date : Nat
  mealType : String
  claimed : Bool
  claimedAt : Nat
  claimedBy : Nat
deriving DecidableEq

/-- Schema default for `mealType` (`default: 'lunch'`). -/
def mealTypeDefault : String := "lunch"

/-- The persistence state seen by the verification workflow. -/
structure VDB where
  students : List Student
  vendors : List Vendor
  mealRecords : List MealRecord
deriving DecidableEq

/-- The compound unique index
`mealRecordSchema.index({ student: 1, date: 1, mealType: 1 }, { unique: true })`:
no two records share the exact `(student, date, mealType)` triple. -/
def uniqueIndexOK : List MealRecord → Bool
  | [] => true
  | r :: rs =>
    !(rs.any (fun q => q.student = r.student && q.date = r.date && q.mealType = r.mealType))
      && uniqueIndexOK rs

/-- The spec's daily-claim invariant: at most one `claimed = true` record
per `(student, calendar day, mealType)`. -/
def oneClaimPerDay : List MealRecord → Bool
  | [] => true
  | r :: rs =>
    !(r.claimed && rs.any (fun q =>
        q.claimed && q.student = r.student && dayStart q.date = dayStart r.date
          && q.mealType = r.mealType))
      && oneClaimPerDay rs

/-- `Student.findOne({$or: [{qrCode}, {rollNumber}, {email}], isActive: true})`
in `verification.js`. -/
def matchesIdentifier (idf : String) (s : Student) : Bool :=
  (s.qrCode = idf || s.rollNumber = idf || s.email = idf) && s.isActive

/-- First active student matching the identifier. -/
def findStudent (db : VDB) (idf : String) : Option Student :=
  db.students.find? (matchesIdentifier idf)

/-- `MealRecord.findOne({student, date: {$gte: today, $lt: tomorrow}, claimed: true})`:
first claimed record of the student inside today's window. -/
def inTodayWindow (now : Nat) (r : MealRecord) : Bool :=
  dayStart now ≤ r.date && r.date < dayStart now + msPerDay

def findTodayMeal (recs : List MealRecord) (sid now : Nat) : Option MealRecord :=
  recs.find? (fun r => r.student = sid && inTodayWindow now r && r.claimed)

/-- The document built by `new MealRecord({...})` in the verify route:
`mealType` is not given, so the schema default applies. -/
def verifyNewRecord (sid vendorId now principal : Nat) : MealRecord :=
  { student := sid, vendor := vendorId, date := now, mealType := mealTypeDefault,
    claimed := true, claimedAt := now, claimedBy := principal }

/-- `save()` rejects a record that collides with an existing one on the
compound unique index `(student, date, mealType)` (Mongo error E11000). -/
def dupKey (recs : List MealRecord) (r : MealRecord) : Bool :=
  recs.any (fun q => q.student = r.student && q.date = r.date && q.mealType = r.mealType)

/-- Outcomes of `POST /verification/verify`. `serverError` is the generic
catch-all 500 response of the route's `catch` block. -/
inductive VerifyResult where
  | badRequest
  | notFound
  | wrongVendor (name rollNumber assignedVendor : String)
  | alreadyClaimed (name rollNumber : String) (claimedAt : Nat)
  | success (name rollNumber email vendorName : String) (claimedAt : Nat)
  | serverError
deriving DecidableEq

/-- The read-only phase of the verify route, up to (but not including) the
`mealRecord.save()` write. -/
inductive CheckOutcome where
  | stop (r : VerifyResult)
  | proceed (s : Student) (vendorName : String)
deriving DecidableEq

/-- Lines 17-70 of `verification.js`: resolve the student, populate the
vendor, check assignment, check today's claimed record.  A student whose
`vendor` reference cannot be populated makes `student.vendor._id` throw,
which the catch block turns into the generic 500. -/
def verifyCheck (db : VDB) (idf : String) (vendorId now : Nat) : CheckOutcome :=
  match findStudent db idf with
  | none => .stop .notFound
  | some s =>
    match db.vendors.find? (fun v => v.vid = s.vendor) with
    | none => .stop .serverError
    | some v =>
      if s.vendor ≠ vendorId then
        .stop (.wrongVendor s.name s.rollNumber v.name)
      else
        match findTodayMeal db.mealRecords s.sid now with
        | some r => .stop (.alreadyClaimed s.name s.rollNumber r.claimedAt)
        | none => .proceed s v.name

/-- Lines 72-112 of `verification.js`: write the meal record (the unique
index is the only failure modelled; the catch block maps it to the generic
500 with no state change), then update the student's last-claim cache and
meal history and report success. -/
def verifyCommit (db : VDB) (s : Student) (vname : String) (vendorId now principal : Nat) :
    VerifyResult × VDB :=
  let r := verifyNewRecord s.sid vendorId now principal
  if dupKey db.mealRecords r then
    (.serverError, db)
  else
    let s' := { s with lastMealClaimed := some { date := now, vendor := vendorId },
                       mealHistory := s.mealHistory ++ [{ date := now, vendor := vendorId, claimed := true }] }
    let db' : VDB := { db with
      mealRecords := db.mealRecords ++ [r],
      students := db.students.map (fun x => if x.sid = s.sid then s' else x) }
    (.success s.name s.rollNumber s.email vname now, db')

/-- The whole `POST /verify` handler, check then write against the same
snapshot (the sequential, race-free execution). -/
def verify (db : VDB) (idf : String) (vendorId now principal : Nat) : VerifyResult × VDB :=
  if idf = "" || vendorId = 0 then (.badRequest, db)
  else
    match verifyCheck db idf vendorId now with
    | .stop r => (r, db)
    | .proceed s vname => verifyCommit db s vname vendorId now principal

/-! ### Roster import (`POST /admin/upload-csv`, `server/routes/admin.js`) -/

/-- One parsed CSV row: the object built by `headers.forEach(...)`,
mapping each header to the (already trimmed) cell value. -/
def Row := List (String × String)

/-- `row[header] || ''`. -/
def getField (row : Row) (h : String) : String :=
  match List.find? (fun p => p.1 = h) row with
  | some p => p.2
  | none => ""

def possibleNameHeaders : List String :=
  ["Full Name", "Name", "name", "full_name", "FullName"]
def possibleEmailHeaders : List String :=
  ["Email Address", "Email", "email", "EmailAddress", "email_address"]
def possibleBatchHeaders : List String :=
  ["Batch", "batch", "Roll Number", "roll_number", "RollNumber"]
def possibleVendorHeaders : List String :=
  ["Vendor", "vendor", "Vendor Name", "vendor_name"]
def possibleLocationHeaders : List String :=
  ["Hostel :", "Hostel", "hostel", "Location", "location"]

/-- `findHeader`: first alias present among the CSV headers, else the
first alias (whose lookup then yields `''`). -/
def findHeader (headers possible : List String) : String :=
  match possible.find? (fun h => headers.contains h) with
  | some h => h
  | none => possible.headD ""

/-- The per-row `studentData` object. -/
structure StudentData where
  name : String
  email : String
  rollNumber : String
  vendor : String
  vendorLocation : String
deriving DecidableEq

def extractData (headers : List String) (row : Row) : StudentData :=
  { name := getField row (findHeader headers possibleNameHeaders),
    email := getField row (findHeader headers possibleEmailHeaders),
    rollNumber := getField row (findHeader headers possibleBatchHeaders),
    vendor := getField row (findHeader headers possibleVendorHeaders),
    vendorLocation := getField row (findHeader headers possibleLocationHeaders) }

/-- The persistent registry the import works on.  `nextSid` / `nextVid`
stand for the id and QR-token generator of the persistence layer. -/
structure Registry where
  students : List Student
  vendors : List Vendor
  nextSid : Nat
  nextVid : Nat
deriving DecidableEq

/-- In-run working state: registry plus the process-local vendor map and
the report accumulators. -/
structure RunState where
  reg : Registry
  vmap : List (String × Nat)
  errors : List String
  processed : Nat
deriving DecidableEq

/-- JS `Map.get`: value of the most recent `set` for the key. -/
def mapLookup (m : List (String × Nat)) (k : String) : Option Nat :=
  match m.find? (fun p => p.1 = k) with
  | some p => some p.2
  | none => none

/-- JS `Map.set`: a later `set` shadows an earlier one. -/
def mapSet (m : List (String × Nat)) (k : String) (v : Nat) : List (String × Nat) :=
  (k, v) :: m

/-- Lines 108-117 of `admin.js`: index every active vendor under its
normalized name and under the normalized name with whitespace removed. -/
def buildVendorMap (vendors : List Vendor) : List (String × Nat) :=
  vendors.foldl
    (fun m v =>
      if v.isActive then
        mapSet (mapSet m (normKey v.name) v.vid) (stripSpaces (normKey v.name)) v.vid
      else m)
    []

/-- Lines 177-206 of `admin.js`: exact normalized map hit, else
case-insensitive substring search over all vendors, else auto-create
(location defaults to `'TBD'`); the two latter branches record the
resolution in the in-run map. -/
def resolveVendor (vname vloc : String) (reg : Registry) (vmap : List (String × Nat)) :
    Nat × Registry × List (String × Nat) :=
  let clean := trimStr vname
  match mapLookup vmap (lowerStr clean) with
  | some vid => (vid, reg, vmap)
  | none =>
    match reg.vendors.find? (fun v => containsCI v.name clean) with
    | some v => (v.vid, reg, mapSet vmap (lowerStr clean) v.vid)
    | none =>
      let nv : Vendor := { vid := reg.nextVid, name := clean,
                           location := if vloc = "" then "TBD" else vloc,
                           isActive := true }
      (nv.vid,
       { reg with vendors := reg.vendors ++ [nv], nextVid := reg.nextVid + 1 },
       mapSet vmap (lowerStr clean) nv.vid)

/-- Index of the first element satisfying `p`
(`Student.findOne` document order). -/
def firstIdx {α : Type} (p : α → Bool) : List α → Option Nat
  | [] => none
  | x :: xs => if p x then some 0 else (firstIdx p xs).map (· + 1)

/-- Replace the element at index `i` by `f` of it. -/
def modifyIdx {α : Type} (f : α → α) : Nat → List α → List α
  | _, [] => []
  | 0, x :: xs => f x :: xs
  | n + 1, x :: xs => x :: modifyIdx f n xs

/-- `Student.findOne({$or: [{email}, {rollNumber}]})` predicate: the
dual-identifier dedup rule of the import.  Mongoose runs the schema
setters on query filter values, so the email value is compared lowercased
(`lowercase: true` on the email path) and the roll number trimmed
(`trim: true` on the rollNumber path). -/
def rowMatches (d : StudentData) (s : Student) : Bool :=
  s.email = lowerStr d.email || s.rollNumber = trimStr d.rollNumber

/-- Lines 231-238 of `admin.js`: update the matched student's mutable
fields (the schema trims `name` and `rollNumber`; `email` and `qrCode` are
not touched). -/
def updStudent (d : StudentData) (vid : Nat) (s : Student) : Student :=
  { s with name := trimStr d.name, rollNumber := trimStr d.rollNumber,
           vendor := vid, isActive := true }

/-- Lines 252-269 of `admin.js` plus the schema hooks: a new student with
lowercased email, trimmed name and roll number and a freshly generated QR
token (the `pre('save')` hook). -/
def mkNewStudent (d : StudentData) (vid sid : Nat) : Student :=
  { sid := sid, name := trimStr d.name, email := lowerStr d.email,
    rollNumber := trimStr d.rollNumber, vendor := vid, isActive := true,
    qrCode := "qr-" ++ toString sid, lastMealClaimed := none, mealHistory := [] }

/-- `true` when the row fails the blank-field check of lines 166-169. -/
def rowBlank (d : StudentData) : Bool :=
  d.name = "" || d.email = "" || d.rollNumber = "" || d.vendor = ""

/-- The institutional-domain rule of lines 172-175. -/
def domainOK (e : String) : Bool := "@sst.scaler.com".data.isSuffixOf e.data

/-- One iteration of the row loop (lines 129-294): validate, resolve the
vendor, find the student by email-or-roll and update it, or else create it
(a create whose lowercased email collides with an existing student is
rejected by the unique email index; the per-row `catch` records the error
and continues). -/
def processRow (headers : List String) (st : RunState) (row : Row) : RunState :=
  let d := extractData headers row
  if rowBlank d then
    { st with errors := st.errors ++ ["Missing required fields"] }
  else if !domainOK d.email then
    { st with errors := st.errors ++ ["Invalid email domain for " ++ d.email] }
  else
    let res := resolveVendor d.vendor d.vendorLocation st.reg st.vmap
    let vid := res.1
    let reg1 := res.2.1
    let vmap1 := res.2.2
    match firstIdx (rowMatches d) reg1.students with
    | some i =>
      { st with
        reg := { reg1 with students := modifyIdx (updStudent d vid) i reg1.students },
        vmap := vmap1, processed := st.processed + 1 }
    | none =>
      if reg1.students.any (fun s => s.email = lowerStr d.email) then
        { st with reg := reg1, vmap := vmap1,
                  errors := st.errors ++ ["E11000 duplicate key"] }
      else
        { st with
          reg := { reg1 with
                    students := reg1.students ++ [mkNewStudent d vid reg1.nextSid],
                    nextSid := reg1.nextSid + 1 },
          vmap := vmap1, processed := st.processed + 1 }

/-- The whole row loop. -/
def runRows (headers : List String) (st : RunState) (rows : List Row) : RunState :=
  rows.foldl (processRow headers) st

/-- Lines 304-314 of `admin.js`: locate the email column among the
accepted spellings; `none` when it cannot be located. -/
def emailHeaderOf (headers : List String) : Option String :=
  possibleEmailHeaders.find? (fun h => headers.contains h)

/-- Lines 321-324: the emails of the roster (trimmed, empty ones dropped
by `filter(Boolean)`); `[]` when the email column was not located. -/
def csvEmails (headers : List String) (rows : List Row) : List String :=
  match emailHeaderOf headers with
  | none => []
  | some h =>
    rows.filterMap (fun row =>
      let e := getField row h
      if e = "" then none
      else if trimStr e = "" then none
      else some (trimStr e))

/-- Lines 385-425: the post-commit deactivation sweep.  Guarded by
`csvEmails.length > 0`; otherwise `Student.updateMany({email: {$nin: csvEmails},
isActive: true}, {isActive: false})`, reporting `modifiedCount`.  Mongoose
casts each `$nin` array element through the email path's
`lowercase: true` setter before it is compared with the stored
(lowercased) emails. -/
def sweep (emails : List String) (reg : Registry) : Registry × Nat :=
  if emails.isEmpty then (reg, 0)
  else
    ({ reg with students := reg.students.map (fun s =>
          if s.isActive && !(emails.map lowerStr).contains s.email
          then { s with isActive := false } else s) },
     reg.students.countP (fun s => s.isActive && !(emails.map lowerStr).contains s.email))

/-- The JSON report of the upload response (lines 485-495). -/
structure Report where
  totalRows : Nat
  processed : Nat
  errorsCount : Nat
  deactivatedCount : Nat
  errorDetails : List String
deriving DecidableEq

def initRunState (reg : Registry) : RunState :=
  { reg := reg, vmap := buildVendorMap reg.vendors, errors := [], processed := 0 }

/-- The whole import: process every row inside the transaction, commit,
then run the deactivation sweep, and return the registry and report. -/
def runImport (headers : List String) (rows : List Row) (reg : Registry) :
    Registry × Report :=
  let st := runRows headers (initRunState reg) rows
  let swept := sweep (csvEmails headers rows) st.reg
  (swept.1,
   { totalRows := rows.length, processed := st.processed,
     errorsCount := st.errors.length, deactivatedCount := swept.2,
     errorDetails := st.errors.take 10 })

/-- `PUT /students/:id` (`students.js`):
`findByIdAndUpdate(id, { name, vendor, isActive })`. -/
def putStudentUpdate (s : Student) (name : String) (vendor : Nat) (isActive : Bool) : Student :=
  { s with name := name, vendor := vendor, isActive := isActive }

/-- The `studentSchema.pre('save')` QR hook: generate a token only for a
new document without one. -/
def applyQrHook (isNew : Bool) (fresh : String) (s : Student) : Student :=
  if isNew && s.qrCode = "" then { s with qrCode := fresh } else s

/-! ### Helper lemmas -/

theorem find?_eq_some_of_unique {α : Type} (p : α → Bool) (l : List α) (a : α)
    (ha : a ∈ l) (hpa : p a = true) (huniq : ∀ b ∈ l, p b = true → b = a) :
    l.find? p = some a := by
  induction l with
  | nil => cases ha
  | cons x xs ih =>
    by_cases hx : p x = true
    · have hxa : x = a := huniq x (List.mem_cons_self x xs) hx
      subst hxa
      simp [List.find?, hx]
    · have hax : a ≠ x := fun h => hx (h ▸ hpa)
      have ha' : a ∈ xs := by
        rcases List.mem_cons.mp ha with h | h
        · exact absurd h hax
        · exact h
      simp only [List.find?, Bool.not_eq_true] at hx ⊢
      rw [hx]
      exact ih ha' (fun b hb hpb => huniq b (List.mem_cons_of_mem x hb) hpb)

/-! ### Shared sample data for witnesses -/

def sJane : Student :=
  { sid := 1, name := "Jane Doe", email := "jane@sst.scaler.com",
    rollNumber := "2024002", vendor := 7, isActive := true, qrCode := "qr-jane",
    lastMealClaimed := none, mealHistory := [] }

def vCafB : Vendor := { vid := 7, name := "Cafeteria B", location := "Campus", isActive := true }

def vCafA : Vendor := { vid := 8, name := "Cafeteria A", location := "Campus", isActive := true }

def dbJane : VDB := { students := [sJane], vendors := [vCafB, vCafA], mealRecords := [] }

/-! ### C6: vendor-scoped verification -/

/-- C6.  For an active student whose identifier resolves to `s` assigned to
vendor `s.vendor` (populated as `v`), calling verify with a different
`vendorId` yields exactly the wrong-vendor outcome carrying the assigned
vendor's name — never success or not-found — and leaves the database (in
particular the meal records) unchanged. -/
theorem verify_wrong_vendor (db : VDB) (idf : String) (vendorId now principal : Nat)
    (s : Student) (v : Vendor)
    (hidf : idf ≠ "") (hvid : vendorId ≠ 0)
    (hs : findStudent db idf = some s)
    (hv : db.vendors.find? (fun w => w.vid = s.vendor) = some v)
    (hne : s.vendor ≠ vendorId) :
    verify db idf vendorId now principal =
      (.wrongVendor s.name s.rollNumber v.name, db) := by
  simp [verify, hidf, hvid, verifyCheck, hs, hv, hne]

theorem verify_wrong_vendor_witness :
    verify dbJane "2024002" 8 1000 99 =
      (.wrongVendor "Jane Doe" "2024002" "Cafeteria B", dbJane) :=
  verify_wrong_vendor dbJane "2024002" 8 1000 99 sJane vCafB
    (by decide) (by decide) (by decide) (by decide) (by decide)

/-! ### C5: already-claimed outcome -/

/-- C5.  If the resolved student already has a unique `claimed = true`
meal record whose `date` lies inside the server-local calendar day of
`now` (midnight inclusive through the following midnight exclusive), the
verify call terminates with the already-claimed outcome carrying the
original claim's timestamp, and creates no new record (the database is
returned unchanged). -/
theorem verify_already_claimed (db : VDB) (idf : String) (vendorId now principal : Nat)
    (s : Student) (v : Vendor) (r : MealRecord)
    (hidf : idf ≠ "") (hvid : vendorId ≠ 0)
    (hs : findStudent db idf = some s)
    (hv : db.vendors.find? (fun w => w.vid = s.vendor) = some v)
    (hsv : s.vendor = vendorId)
    (hr : r ∈ db.mealRecords) (hrs : r.student = s.sid)
    (hlo : dayStart now ≤ r.date) (hhi : r.date < dayStart now + msPerDay)
    (hcl : r.claimed = true)
    (huniq : ∀ q ∈ db.mealRecords, q.student = s.sid → dayStart now ≤ q.date →
      q.date < dayStart now + msPerDay → q.claimed = true → q = r) :
    verify db idf vendorId now principal =
      (.alreadyClaimed s.name s.rollNumber r.claimedAt, db) := by
  have hfind : findTodayMeal db.mealRecords s.sid now = some r := by
    apply find?_eq_some_of_unique _ _ _ hr
    · simp [inTodayWindow, hrs, hlo, hhi, hcl]
    · intro q hq hpq
      simp only [inTodayWindow, Bool.and_eq_true, decide_eq_true_eq] at hpq
      exact huniq q hq hpq.1.1 hpq.1.2.1 hpq.1.2.2 hpq.2
  have hv' : db.vendors.find? (fun w => w.vid = vendorId) = some v := hsv ▸ hv
  simp [verify, hidf, hvid, verifyCheck, hs, hv', hsv, hfind]

def dbJaneClaimed : VDB :=
  { dbJane with mealRecords := [verifyNewRecord 1 7 1000 99] }

theorem verify_already_claimed_witness :
    verify dbJaneClaimed "2024002" 7 2000 99 =
      (.alreadyClaimed "Jane Doe" "2024002" 1000, dbJaneClaimed) :=
  verify_already_claimed dbJaneClaimed "2024002" 7 2000 99 sJane vCafB
    (verifyNewRecord 1 7 1000 99)
    (by decide) (by decide) (by decide) (by decide) (by decide)
    (by decide) (by decide) (by decide) (by decide) (by decide)
    (by decide)

/-! ### C3: outcome of a lost check-then-write race -/

/-- The database after the first of two racing verify calls (both checks
read the empty-ledger snapshot `dbJane`) has committed its write at
instant 1000. -/
def dbAfterFirstWriter : VDB := (verifyCommit dbJane sJane "Cafeteria B" 7 1000 99).2

/-- C3, counterexample.  Two racing verify calls for Jane pass the
already-claimed check on the same snapshot; the first write commits, and
the second write — hitting the unique-index violation because it carries
the identical `(student, date, mealType)` key — is answered by the route's
`catch` block with the generic server error, not with the already-claimed
outcome. -/
theorem verify_race_loser_gets_server_error :
    verifyCheck dbJane "2024002" 7 1000 = .proceed sJane "Cafeteria B" ∧
    (verifyCommit dbJane sJane "Cafeteria B" 7 1000 99).1 =
      .success "Jane Doe" "2024002" "jane@sst.scaler.com" "Cafeteria B" 1000 ∧
    dupKey dbAfterFirstWriter.mealRecords (verifyNewRecord sJane.sid 7 1000 99) = true ∧
    (verifyCommit dbAfterFirstWriter sJane "Cafeteria B" 7 1000 99).1 =
      VerifyResult.serverError ∧
    (verifyCommit dbAfterFirstWriter sJane "Cafeteria B" 7 1000 99).1 ≠
      VerifyResult.alreadyClaimed "Jane Doe" "2024002" 1000 := by
  refine ⟨by decide, by decide, by decide, by decide, by decide⟩

/-- C3, amended.  Whenever the meal-record write fails with the
uniqueness violation of the compound index, the verify route answers with
the generic server error (HTTP 500) and leaves the database unchanged; the
uniqueness violation is not translated into the already-claimed outcome. -/
theorem verify_dup_key_is_server_error (db : VDB) (s : Student) (vname : String)
    (vendorId now principal : Nat)
    (hdup : dupKey db.mealRecords (verifyNewRecord s.sid vendorId now principal) = true) :
    verifyCommit db s vname vendorId now principal = (VerifyResult.serverError, db) := by
  simp [verifyCommit, hdup]

theorem verify_dup_key_is_server_error_witness :
    verifyCommit dbAfterFirstWriter sJane "Cafeteria B" 7 1000 99 =
      (VerifyResult.serverError, dbAfterFirstWriter) :=
  verify_dup_key_is_server_error dbAfterFirstWriter sJane "Cafeteria B" 7 1000 99 (by decide)

/-! ### C1: one-claim-per-day under concurrency -/

/-- The ledger after two interleaved verify calls for Jane at instants
1000 and 2000 of the same calendar day; both already-claimed checks ran
against the initial empty-ledger snapshot before either write. -/
def dbAfterRace : VDB := (verifyCommit dbAfterFirstWriter sJane "Cafeteria B" 7 2000 99).2

/-- C1, failing execution.  Because the route stores the raw instant in
`date` while the unique index keys on the exact `(student, date, mealType)`
triple, two interleaved verify calls on the same calendar day both pass
the check and both writes are accepted by the index: the resulting ledger
satisfies the persistence-layer uniqueness constraint yet holds two
`claimed = true` records for the same (student, calendar day, meal-type),
contradicting the one-claim-per-day invariant the index is documented to
enforce. -/
theorem one_claim_per_day_violated_under_race :
    verifyCheck dbJane "2024002" 7 1000 = .proceed sJane "Cafeteria B" ∧
    verifyCheck dbJane "2024002" 7 2000 = .proceed sJane "Cafeteria B" ∧
    (verifyCommit dbJane sJane "Cafeteria B" 7 1000 99).1 =
      .success "Jane Doe" "2024002" "jane@sst.scaler.com" "Cafeteria B" 1000 ∧
    (verifyCommit dbAfterFirstWriter sJane "Cafeteria B" 7 2000 99).1 =
      .success "Jane Doe" "2024002" "jane@sst.scaler.com" "Cafeteria B" 2000 ∧
    dayStart 1000 = dayStart 2000 ∧
    uniqueIndexOK dbAfterRace.mealRecords = true ∧
    oneClaimPerDay dbAfterRace.mealRecords = false := by
  refine ⟨by decide, by decide, by decide, by decide, by decide, by decide, by decide⟩

/-! ### C10: verification-created records always carry meal type lunch -/

/-- C10.  Every meal record present after a verify call that was not
already present before it (i.e. every record the verify operation
creates) has `mealType = "lunch"`: the route never sets `mealType`, so
the schema default applies, and the unique `(student, date, mealType)`
key only ever occurs with `"lunch"` for verification-created records. -/
theorem verify_created_records_are_lunch (db : VDB) (idf : String)
    (vendorId now principal : Nat) (r : MealRecord)
    (hmem : r ∈ (verify db idf vendorId now principal).2.mealRecords)
    (hnew : r ∉ db.mealRecords) : r.mealType = "lunch" := by
  unfold verify at hmem
  split at hmem
  · exact absurd hmem hnew
  · split at hmem
    · exact absurd hmem hnew
    · rename_i s vname hcheck
      by_cases hdup : dupKey db.mealRecords (verifyNewRecord s.sid vendorId now principal) = true
      · simp [verifyCommit, hdup] at hmem
        exact absurd hmem hnew
      · simp [verifyCommit, hdup] at hmem
        rcases hmem with h | h
        · exact absurd h hnew
        · subst h
          rfl

theorem verify_created_records_are_lunch_witness :
    verifyNewRecord 1 7 1000 99 ∈ (verify dbJane "2024002" 7 1000 99).2.mealRecords ∧
    verifyNewRecord 1 7 1000 99 ∉ dbJane.mealRecords ∧
    (verifyNewRecord 1 7 1000 99).mealType = "lunch" :=
  ⟨by decide, by decide,
   verify_created_records_are_lunch dbJane "2024002" 7 1000 99 _ (by decide) (by decide)⟩

/-! ### C9: immutability of the QR token -/

/-- C9.  Once a student's `qrCode` is set it is never changed: the
roster-import update path, the `PUT /students/:id` update, and a verify
call all leave every student's `qrCode` as it was, and the `pre('save')`
hook only generates a token for a new document that has none. -/
theorem qr_code_immutable :
    (∀ (d : StudentData) (vid : Nat) (s : Student), (updStudent d vid s).qrCode = s.qrCode) ∧
    (∀ (s : Student) (n : String) (v : Nat) (a : Bool),
      (putStudentUpdate s n v a).qrCode = s.qrCode) ∧
    (∀ (db : VDB) (idf : String) (vendorId now principal : Nat) (x : Student),
      x ∈ (verify db idf vendorId now principal).2.students →
      ∃ y ∈ db.students, y.sid = x.sid ∧ x.qrCode = y.qrCode) ∧
    (∀ (isNew : Bool) (fresh : String) (s : Student),
      s.qrCode ≠ "" → (applyQrHook isNew fresh s).qrCode = s.qrCode) := by
  refine ⟨fun d vid s => rfl, fun s n v a => rfl, ?_, ?_⟩
  · intro db idf vendorId now principal x hx
    unfold verify at hx
    split at hx
    · exact ⟨x, hx, rfl, rfl⟩
    · split at hx
      · exact ⟨x, hx, rfl, rfl⟩
      · rename_i s vname hcheck
        have hsfind : findStudent db idf = some s := by
          cases hfind : findStudent db idf with
          | none => simp [verifyCheck, hfind] at hcheck
          | some t =>
            cases hv : db.vendors.find? (fun v => v.vid = t.vendor) with
            | none => simp [verifyCheck, hfind, hv] at hcheck
            | some v =>
              by_cases hne : t.vendor ≠ vendorId
              · simp [verifyCheck, hfind, hv, hne] at hcheck
              · cases hm : findTodayMeal db.mealRecords t.sid now with
                | some r => simp [verifyCheck, hfind, hv, hne, hm] at hcheck
                | none =>
                  simp [verifyCheck, hfind, hv, hne, hm] at hcheck
                  rw [hcheck.1]
        have hsmem : s ∈ db.students := List.mem_of_find?_eq_some hsfind
        by_cases hdup : dupKey db.mealRecords (verifyNewRecord s.sid vendorId now principal) = true
        · simp only [verifyCommit, hdup, if_true] at hx
          exact ⟨x, hx, rfl, rfl⟩
        · simp only [verifyCommit, hdup, if_false, Bool.false_eq_true, if_neg,
            not_false_eq_true, List.mem_map] at hx
          obtain ⟨y, hy, hxy⟩ := hx
          by_cases hsid : y.sid = s.sid
          · refine ⟨s, hsmem, ?_, ?_⟩
            · rw [← hxy]; simp [hsid]
            · rw [← hxy]; simp [hsid]
          · refine ⟨y, hy, ?_, ?_⟩
            · rw [← hxy]; simp [hsid]
            · rw [← hxy]; simp [hsid]
  · intro isNew fresh s hq
    unfold applyQrHook
    split
    · rename_i h
      exact absurd (by exact (Bool.and_eq_true _ _ |>.mp h).2 |> of_decide_eq_true) hq
    · rfl

theorem qr_code_immutable_witness :
    (updStudent ⟨"N", "e@sst.scaler.com", "r", "V", ""⟩ 7 sJane).qrCode = "qr-jane" ∧
    (putStudentUpdate sJane "New Name" 8 false).qrCode = "qr-jane" ∧
    (∃ y ∈ dbJane.students, y.sid = 1 ∧ "qr-jane" = y.qrCode) ∧
    (applyQrHook true "fresh-token" sJane).qrCode = "qr-jane" := by
  have h1 := qr_code_immutable.1 ⟨"N", "e@sst.scaler.com", "r", "V", ""⟩ 7 sJane
  have h2 := qr_code_immutable.2.1 sJane "New Name" 8 false
  have h4 := qr_code_immutable.2.2.2 true "fresh-token" sJane (by decide)
  refine ⟨?_, ?_, ⟨sJane, by decide, by decide, by decide⟩, ?_⟩
  · rw [h1]; rfl
  · rw [h2]; rfl
  · rw [h4]; rfl

/-! ### C2: empty roster never deactivates anyone -/

/-- `new` keeps every student of `old` at its position, with the same id,
and never turns an active student inactive. -/
def activePreserved (old new : List Student) : Bool :=
  (List.range old.length).all (fun i =>
    match old[i]?, new[i]? with
    | some o, some s => s.sid = o.sid && (!o.isActive || s.isActive)
    | _, _ => false)

theorem modifyIdx_getElem? {α : Type} (f : α → α) (n : Nat) (l : List α) (i : Nat) :
    (modifyIdx f n l)[i]? = if i = n then l[i]?.map f else l[i]? := by
  induction l generalizing n i with
  | nil => simp [modifyIdx]
  | cons x xs ih =>
    cases n with
    | zero =>
      cases i with
      | zero => simp [modifyIdx]
      | succ j => simp [modifyIdx]
    | succ m =>
      cases i with
      | zero => simp [modifyIdx]
      | succ j =>
        simp only [modifyIdx, List.getElem?_cons_succ, ih, Nat.succ_eq_add_one]
        by_cases h : j = m
        · simp [h]
        · simp [h, fun hc => h (Nat.succ_injective hc)]

theorem activePreserved_refl (l : List Student) : activePreserved l l = true := by
  simp only [activePreserved, List.all_eq_true]
  intro i hi
  have hlt : i < l.length := List.mem_range.mp hi
  obtain ⟨o, ho⟩ : ∃ o, l[i]? = some o := ⟨l[i], List.getElem?_eq_getElem hlt⟩
  simp [ho]

theorem activePreserved_trans (l1 l2 l3 : List Student)
    (h1 : activePreserved l1 l2 = true) (h2 : activePreserved l2 l3 = true) :
    activePreserved l1 l3 = true := by
  simp only [activePreserved, List.all_eq_true] at h1 h2 ⊢
  intro i hi
  have hia := h1 i hi
  cases ho : l1[i]? with
  | none => simp [ho] at hia
  | some o =>
    cases hb : l2[i]? with
    | none => simp [ho, hb] at hia
    | some sb =>
      have hib : i ∈ List.range l2.length := by
        refine List.mem_range.mpr ?_
        by_contra hcon
        have hn : l2[i]? = none := List.getElem?_eq_none (Nat.le_of_not_lt hcon)
        rw [hn] at hb
        cases hb
      have hbc := h2 i hib
      cases hc : l3[i]? with
      | none => simp [hb, hc] at hbc
      | some sc =>
        simp only [ho, hb, hc, Bool.and_eq_true, Bool.or_eq_true, Bool.not_eq_true',
          decide_eq_true_eq] at hia hbc ⊢
        refine ⟨hbc.1.trans hia.1, ?_⟩
        rcases hia.2 with h | h
        · exact Or.inl h
        · rcases hbc.2 with h' | h'
          · rw [h'] at h; cases h
          · exact Or.inr h'

theorem resolveVendor_students (vname vloc : String) (reg : Registry)
    (vmap : List (String × Nat)) :
    (resolveVendor vname vloc reg vmap).2.1.students = reg.students := by
  simp only [resolveVendor]
  split
  · rfl
  · split
    · rfl
    · rfl

theorem processRow_activePreserved (headers : List String) (st : RunState) (row : Row) :
    activePreserved st.reg.students (processRow headers st row).reg.students = true := by
  simp only [processRow]
  split
  · exact activePreserved_refl _
  · split
    · exact activePreserved_refl _
    · have hreg1 : (resolveVendor (extractData headers row).vendor
          (extractData headers row).vendorLocation st.reg st.vmap).2.1.students
          = st.reg.students := resolveVendor_students _ _ _ _
      split
      · rename_i i hidx
        simp only [activePreserved, List.all_eq_true]
        intro j hj
        have hlt : j < st.reg.students.length := List.mem_range.mp hj
        obtain ⟨o, ho⟩ : ∃ o, st.reg.students[j]? = some o :=
          ⟨st.reg.students[j], List.getElem?_eq_getElem hlt⟩
        have ho1 : (resolveVendor (extractData headers row).vendor
            (extractData headers row).vendorLocation st.reg st.vmap).2.1.students[j]? = some o := by
          rw [hreg1]; exact ho
        rw [ho, modifyIdx_getElem?]
        by_cases hji : j = i
        · subst hji
          rw [if_pos rfl, ho1]
          simp [updStudent]
        · rw [if_neg hji, ho1]
          simp
      · split
        · simp only [hreg1]
          exact activePreserved_refl _
        · simp only [activePreserved, List.all_eq_true]
          intro j hj
          have hlt : j < st.reg.students.length := List.mem_range.mp hj
          obtain ⟨o, ho⟩ : ∃ o, st.reg.students[j]? = some o :=
            ⟨st.reg.students[j], List.getElem?_eq_getElem hlt⟩
          have hj1 : j < (resolveVendor (extractData headers row).vendor
              (extractData headers row).vendorLocation st.reg st.vmap).2.1.students.length := by
            rw [hreg1]; exact hlt
          have ho1 : (resolveVendor (extractData headers row).vendor
              (extractData headers row).vendorLocation st.reg st.vmap).2.1.students[j]?
              = some o := by
            rw [hreg1]; exact ho
          rw [ho, List.getElem?_append_left hj1, ho1]
          simp

theorem runRows_activePreserved (headers : List String) (rows : List Row) (st : RunState) :
    activePreserved st.reg.students (runRows headers st rows).reg.students = true := by
  induction rows generalizing st with
  | nil => exact activePreserved_refl _
  | cons r rs ih =>
    exact activePreserved_trans _ _ _ (processRow_activePreserved headers st r)
      (ih (processRow headers st r))

/-- C2.  If the parsed roster yields zero usable emails (for instance
because the email column could not be located), the deactivation sweep is
skipped entirely: the import reports zero deactivations and every
previously active student is still active (same id, same position) in the
final registry. -/
theorem empty_roster_no_wipe (headers : List String) (rows : List Row) (reg : Registry)
    (hEmpty : csvEmails headers rows = []) :
    (runImport headers rows reg).2.deactivatedCount = 0 ∧
    activePreserved reg.students (runImport headers rows reg).1.students = true := by
  constructor
  · unfold runImport
    rw [hEmpty]
    simp [sweep]
  · unfold runImport
    rw [hEmpty]
    simp only [sweep, List.isEmpty_nil, if_true]
    exact runRows_activePreserved headers rows (initRunState reg)

def wHeadersNoEmail : List String := ["Full Name", "Batch", "Vendor"]

def wRowNoEmail : Row :=
  [("Full Name", "Jane Doe"), ("Batch", "2024002"), ("Vendor", "Cafeteria B")]

def wRegistry : Registry :=
  { students := [sJane], vendors := [vCafB, vCafA], nextSid := 100, nextVid := 100 }

theorem empty_roster_no_wipe_witness :
    (runImport wHeadersNoEmail [wRowNoEmail] wRegistry).2.deactivatedCount = 0 ∧
    activePreserved wRegistry.students
      (runImport wHeadersNoEmail [wRowNoEmail] wRegistry).1.students = true :=
  empty_roster_no_wipe wHeadersNoEmail [wRowNoEmail] wRegistry (by decide)

/-! ### C7: vendor deduplication and auto-creation -/

theorem mapLookup_mapSet_self (m : List (String × Nat)) (k : String) (v : Nat) :
    mapLookup (mapSet m k v) k = some v := by
  simp [mapLookup, mapSet, List.find?]

/-- C7.  Vendor resolution is deduplicating: two roster rows whose vendor
names agree up to surrounding whitespace and casing resolve to the very
same vendor id, and the second resolution changes nothing (no second
`Vendor` is created).  When neither the exact normalized lookup nor the
case-insensitive substring search matches, a new vendor is auto-created
with `location = row.location or "TBD"` and recorded in the in-run index
under the normalized name. -/
theorem vendor_dedup_and_autocreate :
    (∀ (v1 loc1 v2 loc2 : String) (reg : Registry) (vmap : List (String × Nat)),
      normKey v1 = normKey v2 →
      (resolveVendor v2 loc2 (resolveVendor v1 loc1 reg vmap).2.1
          (resolveVendor v1 loc1 reg vmap).2.2).1 = (resolveVendor v1 loc1 reg vmap).1 ∧
      (resolveVendor v2 loc2 (resolveVendor v1 loc1 reg vmap).2.1
          (resolveVendor v1 loc1 reg vmap).2.2).2 = (resolveVendor v1 loc1 reg vmap).2) ∧
    (∀ (vname vloc : String) (reg : Registry) (vmap : List (String × Nat)),
      mapLookup vmap (normKey vname) = none →
      reg.vendors.find? (fun v => containsCI v.name (trimStr vname)) = none →
      resolveVendor vname vloc reg vmap =
        (reg.nextVid,
         { reg with
            vendors := reg.vendors ++
              [{ vid := reg.nextVid, name := trimStr vname,
                 location := if vloc = "" then "TBD" else vloc, isActive := true }],
            nextVid := reg.nextVid + 1 },
         mapSet vmap (normKey vname) reg.nextVid)) := by
  constructor
  · intro v1 loc1 v2 loc2 reg vmap hEq
    have hkey : lowerStr (trimStr v2) = lowerStr (trimStr v1) := (hEq.symm : normKey v2 = normKey v1)
    unfold resolveVendor
    cases hm : mapLookup vmap (lowerStr (trimStr v1)) with
    | some vid =>
      simp only [hm, hkey]
      simp [hm]
    | none =>
      cases hf : reg.vendors.find? (fun v => containsCI v.name (trimStr v1)) with
      | some v =>
        simp only [hm, hf, hkey]
        simp [mapLookup_mapSet_self]
      | none =>
        simp only [hm, hf, hkey]
        simp [mapLookup_mapSet_self]
  · intro vname vloc reg vmap hm hf
    simp only [normKey] at hm
    unfold resolveVendor
    simp [normKey, hm, hf]

def wVendorState : Nat × Registry × List (String × Nat) :=
  resolveVendor " Fresh Foods " "Hostel 1" wRegistry (buildVendorMap wRegistry.vendors)

theorem vendor_dedup_and_autocreate_witness :
    (resolveVendor "FRESH FOODS" "" wVendorState.2.1 wVendorState.2.2).1 = wVendorState.1 ∧
    (resolveVendor "FRESH FOODS" "" wVendorState.2.1 wVendorState.2.2).2 = wVendorState.2 ∧
    wVendorState.1 = 100 ∧
    wVendorState.2.1.vendors =
      wRegistry.vendors ++
        [{ vid := 100, name := "Fresh Foods", location := "Hostel 1", isActive := true }] := by
  have hdedup := vendor_dedup_and_autocreate.1 " Fresh Foods " "Hostel 1" "FRESH FOODS" ""
    wRegistry (buildVendorMap wRegistry.vendors) (by decide)
  have hcreate := vendor_dedup_and_autocreate.2 " Fresh Foods " "Hostel 1"
    wRegistry (buildVendorMap wRegistry.vendors) (by decide) (by decide)
  refine ⟨hdedup.1, hdedup.2, ?_, ?_⟩
  · rw [show wVendorState =
      resolveVendor " Fresh Foods " "Hostel 1" wRegistry (buildVendorMap wRegistry.vendors) from rfl,
      hcreate]
    decide
  · rw [show wVendorState =
      resolveVendor " Fresh Foods " "Hostel 1" wRegistry (buildVendorMap wRegistry.vendors) from rfl,
      hcreate]
    decide

/-! ### C8: per-row failures never abort the import -/

/-- C8.  A roster row with a blank required field or a non-institutional
email only appends a per-row error message — registry, vendor map and
processed count are untouched — and the fold over the remaining rows
continues from that state, so no single-row failure aborts the run; the
upload always returns a report whose `totalRows` is the full row count and
whose `errorDetails` lists (the first ten of) the recorded errors. -/
theorem row_errors_recorded_and_run_continues :
    (∀ (headers : List String) (st : RunState) (row : Row),
      rowBlank (extractData headers row) = true →
      processRow headers st row = { st with errors := st.errors ++ ["Missing required fields"] }) ∧
    (∀ (headers : List String) (st : RunState) (row : Row),
      rowBlank (extractData headers row) = false →
      domainOK (extractData headers row).email = false →
      processRow headers st row =
        { st with errors := st.errors ++
            ["Invalid email domain for " ++ (extractData headers row).email] }) ∧
    (∀ (headers : List String) (st : RunState) (pre : List Row) (row : Row) (post : List Row),
      runRows headers st (pre ++ row :: post) =
        runRows headers (processRow headers (runRows headers st pre) row) post) ∧
    (∀ (headers : List String) (rows : List Row) (reg : Registry),
      (runImport headers rows reg).2.totalRows = rows.length ∧
      (runImport headers rows reg).2.errorsCount =
        (runRows headers (initRunState reg) rows).errors.length ∧
      (runImport headers rows reg).2.errorDetails =
        (runRows headers (initRunState reg) rows).errors.take 10) := by
  refine ⟨?_, ?_, ?_, ?_⟩
  · intro headers st row hblank
    simp only [processRow]
    rw [hblank]
    simp
  · intro headers st row hblank hdom
    simp only [processRow]
    rw [hblank, hdom]
    simp
  · intro headers st pre row post
    unfold runRows
    rw [List.foldl_append]
    rfl
  · intro headers rows reg
    exact ⟨rfl, rfl, rfl⟩

def wRowBlank : Row := [("Full Name", "No Email"), ("Batch", "2024009"), ("Vendor", "Cafeteria B")]

def wHeaders : List String := ["Full Name", "Email Address", "Batch", "Vendor"]

def wRowGood : Row :=
  [("Full Name", "Jane Doe"), ("Email Address", "jane@sst.scaler.com"),
   ("Batch", "2024002"), ("Vendor", "Cafeteria B")]

theorem row_errors_recorded_and_run_continues_witness :
    processRow wHeaders (initRunState wRegistry) wRowBlank =
      { initRunState wRegistry with errors := ["Missing required fields"] } ∧
    runRows wHeaders (initRunState wRegistry) ([wRowBlank] ++ wRowGood :: []) =
      runRows wHeaders
        (processRow wHeaders (runRows wHeaders (initRunState wRegistry) [wRowBlank]) wRowGood) [] ∧
    (runImport wHeaders [wRowBlank, wRowGood] wRegistry).2.totalRows = 2 := by
  refine ⟨?_, ?_, ?_⟩
  · have h := row_errors_recorded_and_run_continues.1 wHeaders (initRunState wRegistry)
      wRowBlank (by decide)
    rw [h]
    decide
  · exact row_errors_recorded_and_run_continues.2.2.1 wHeaders (initRunState wRegistry)
      [wRowBlank] wRowGood []
  · exact (row_errors_recorded_and_run_continues.2.2.2 wHeaders [wRowBlank, wRowGood] wRegistry).1

/-! ### C4: infrastructure about `firstIdx` and `modifyIdx` -/

theorem firstIdx_congr {α : Type} (p q : α → Bool) (l : List α)
    (h : ∀ x ∈ l, p x = q x) : firstIdx p l = firstIdx q l := by
  induction l with
  | nil => rfl
  | cons x xs ih =>
    simp only [firstIdx, h x (List.mem_cons_self x xs)]
    rw [ih (fun y hy => h y (List.mem_cons_of_mem x hy))]

theorem firstIdx_map {α β : Type} (p : β → Bool) (f : α → β) (l : List α) :
    firstIdx p (l.map f) = firstIdx (fun x => p (f x)) l := by
  induction l with
  | nil => rfl
  | cons x xs ih => simp only [List.map_cons, firstIdx, ih]

theorem firstIdx_none_iff {α : Type} (p : α → Bool) (l : List α) :
    firstIdx p l = none ↔ ∀ x ∈ l, p x = false := by
  induction l with
  | nil => simp [firstIdx]
  | cons x xs ih =>
    by_cases hx : p x = true
    · simp [firstIdx, hx]
    · simp only [Bool.not_eq_true] at hx
      simp [firstIdx, hx, ih]

theorem firstIdx_append_some {α : Type} (p : α → Bool) (l1 l2 : List α) (j : Nat)
    (h : firstIdx p l1 = some j) : firstIdx p (l1 ++ l2) = some j := by
  induction l1 generalizing j with
  | nil => cases h
  | cons x xs ih =>
    rw [List.cons_append]
    by_cases hx : p x = true
    · simp only [firstIdx, hx, if_true] at h ⊢
      exact h
    · simp only [Bool.not_eq_true] at hx
      simp only [firstIdx, hx, Bool.false_eq_true, if_false] at h ⊢
      cases hm : firstIdx p xs with
      | none => rw [hm] at h; cases h
      | some j' =>
        rw [hm] at h
        rw [ih j' hm]
        exact h

theorem firstIdx_append_none {α : Type} (p : α → Bool) (l1 l2 : List α)
    (h : firstIdx p l1 = none) :
    firstIdx p (l1 ++ l2) = (firstIdx p l2).map (· + l1.length) := by
  induction l1 with
  | nil =>
    rw [List.nil_append]
    cases firstIdx p l2 <;> simp
  | cons x xs ih =>
    have hx : p x = false := (firstIdx_none_iff p (x :: xs)).mp h x (List.mem_cons_self x xs)
    have hxs : firstIdx p xs = none := by
      rw [firstIdx_none_iff]
      exact fun y hy => (firstIdx_none_iff p (x :: xs)).mp h y (List.mem_cons_of_mem x hy)
    rw [List.cons_append]
    simp only [firstIdx, hx, Bool.false_eq_true, if_false]
    rw [ih hxs]
    cases firstIdx p l2 with
    | none => rfl
    | some j =>
      simp only [Option.map_some', List.length_cons, Option.some.injEq]
      omega

theorem firstIdx_some_spec {α : Type} (p : α → Bool) (l : List α) (j : Nat)
    (h : firstIdx p l = some j) :
    (∃ x, l[j]? = some x ∧ p x = true) ∧ ∀ k, k < j → ∃ x, l[k]? = some x ∧ p x = false := by
  induction l generalizing j with
  | nil => cases h
  | cons x xs ih =>
    by_cases hx : p x = true
    · simp only [firstIdx, hx, if_true] at h
      cases h
      exact ⟨⟨x, by simp, hx⟩, fun k hk => absurd hk (Nat.not_lt_zero k)⟩
    · simp only [Bool.not_eq_true] at hx
      simp only [firstIdx, hx, Bool.false_eq_true, if_false] at h
      cases hm : firstIdx p xs with
      | none => rw [hm] at h; cases h
      | some j' =>
        rw [hm] at h
        simp only [Option.map_some'] at h
        cases h
        obtain ⟨⟨y, hy, hpy⟩, hbefore⟩ := ih j' hm
        refine ⟨⟨y, by simpa using hy, hpy⟩, ?_⟩
        intro k hk
        cases k with
        | zero => exact ⟨x, by simp, hx⟩
        | succ m =>
          obtain ⟨z, hz, hpz⟩ := hbefore m (Nat.lt_of_succ_lt_succ hk)
          exact ⟨z, by simpa using hz, hpz⟩

theorem firstIdx_some_lt {α : Type} (p : α → Bool) (l : List α) (j : Nat)
    (h : firstIdx p l = some j) : j < l.length := by
  obtain ⟨⟨x, hx, _⟩, _⟩ := firstIdx_some_spec p l j h
  exact (List.getElem?_eq_some.mp hx).1

theorem modifyIdx_append_left {α : Type} (f : α → α) (j : Nat) (l1 l2 : List α)
    (h : j < l1.length) : modifyIdx f j (l1 ++ l2) = modifyIdx f j l1 ++ l2 := by
  induction l1 generalizing j with
  | nil => cases h
  | cons x xs ih =>
    cases j with
    | zero => rfl
    | succ m =>
      simp only [List.cons_append, modifyIdx]
      rw [show (xs.append l2) = xs ++ l2 from rfl, ih m (Nat.lt_of_succ_lt_succ h)]

theorem modifyIdx_eq_self {α : Type} (f : α → α) (j : Nat) (l : List α)
    (h : ∀ x, l[j]? = some x → f x = x) : modifyIdx f j l = l := by
  induction l generalizing j with
  | nil => cases j <;> rfl
  | cons x xs ih =>
    cases j with
    | zero =>
      simp only [modifyIdx]
      rw [h x (by simp)]
    | succ m =>
      simp only [modifyIdx]
      rw [ih m (fun y hy => h y (by simpa using hy))]

/-! ### C4: the well-formedness hypotheses of the amended idempotence claim -/

/-- The stored form of a row's email: the schema's `lowercase: true`
setter is applied both when the document is saved and when the value is
used in a query filter, so every comparison against the database goes
through this form. -/
def rowEmail (headers : List String) (r : Row) : String :=
  lowerStr (extractData headers r).email

/-- The stored form of a row's roll number (`trim: true` setter, likewise
applied on save and on query filters). -/
def rowRoll (headers : List String) (r : Row) : String :=
  trimStr (extractData headers r).rollNumber

/-- The hypotheses under which the roster import is idempotent:
the email column is locatable; every row passes validation; row emails
carry no surrounding whitespace (the route's CSV parser trims every cell,
so this holds for every parsed roster; it matters because the deactivation
sweep re-trims the raw cell while the stored email is only lowercased);
stored-form emails and roll numbers are pairwise distinct across rows and
emails across pre-existing students; a row matching a pre-existing student
on either identifier matches it on both (no aliasing through the dual
email-or-roll dedup rule, see `roster_import_not_idempotent`); and every
row's vendor name resolves by an exact normalized hit in the vendor map
built from the pre-existing active vendors (no regex fallback, no
auto-creation, see again `roster_import_not_idempotent`). -/
structure RosterOK (headers : List String) (rows : List Row) (reg0 : Registry) : Prop where
  hdr : (emailHeaderOf headers).isSome
  valid : ∀ r ∈ rows, rowBlank (extractData headers r) = false ∧
    domainOK (extractData headers r).email = true
  emailsTrimmed : ∀ r ∈ rows,
    trimStr (extractData headers r).email = (extractData headers r).email
  rowEmailsNodup : rows.Pairwise
    (fun a b => rowEmail headers a ≠ rowEmail headers b)
  rowRollsNodup : rows.Pairwise
    (fun a b => rowRoll headers a ≠ rowRoll headers b)
  regEmailsNodup : reg0.students.Pairwise (fun a b => a.email ≠ b.email)
  fullMatch : ∀ r ∈ rows, ∀ s ∈ reg0.students,
    (s.email = rowEmail headers r ∨ s.rollNumber = rowRoll headers r) →
    (s.email = rowEmail headers r ∧ s.rollNumber = rowRoll headers r)
  vendorExact : ∀ r ∈ rows,
    (mapLookup (buildVendorMap reg0.vendors) (normKey (extractData headers r).vendor)).isSome

/-- The vendor id a row resolves to under `RosterOK.vendorExact`. -/
def vidOf (headers : List String) (reg0 : Registry) (r : Row) : Nat :=
  (mapLookup (buildVendorMap reg0.vendors) (normKey (extractData headers r).vendor)).getD 0

/-- The net effect of one import run on a pre-existing student: the row
with its stored-form email (unique under `RosterOK`) rewrites its mutable
fields. -/
def settleStudent (headers : List String) (reg0 : Registry) (pr : List Row) (s : Student) :
    Student :=
  match pr.find? (fun r => rowEmail headers r = s.email) with
  | some r => updStudent (extractData headers r) (vidOf headers reg0 r) s
  | none => s

/-- A row that matches no pre-existing student by stored-form email (under
`RosterOK` such a row creates a new student). -/
def isNewRow (headers : List String) (reg0 : Registry) (r : Row) : Bool :=
  !(reg0.students.any (fun s => s.email = rowEmail headers r))

def creationRows (headers : List String) (reg0 : Registry) (rows : List Row) : List Row :=
  rows.filter (isNewRow headers reg0)

/-- The students created for the given rows, ids starting at `sid`. -/
def creationsFrom (headers : List String) (reg0 : Registry) (sid : Nat) : List Row → List Student
  | [] => []
  | r :: rs =>
    mkNewStudent (extractData headers r) (vidOf headers reg0 r) sid ::
      creationsFrom headers reg0 (sid + 1) rs

/-- The run state after the row-processing loop has consumed the rows
`pr`, under `RosterOK` (no errors, one processed row per input row). -/
def stateSpec (headers : List String) (reg0 : Registry) (pr : List Row) : RunState :=
  { reg := { students := reg0.students.map (settleStudent headers reg0 pr) ++
               creationsFrom headers reg0 reg0.nextSid (creationRows headers reg0 pr),
             vendors := reg0.vendors,
             nextSid := reg0.nextSid + (creationRows headers reg0 pr).length,
             nextVid := reg0.nextVid },
    vmap := buildVendorMap reg0.vendors, errors := [], processed := pr.length }

/-- The net effect of one import run (processing plus deactivation sweep)
on a pre-existing student. -/
def finalStudent (headers : List String) (reg0 : Registry) (rows : List Row) (s : Student) :
    Student :=
  match rows.find? (fun r => rowEmail headers r = s.email) with
  | some r => updStudent (extractData headers r) (vidOf headers reg0 r) s
  | none => if s.isActive then { s with isActive := false } else s

/-- The registry after one full import run under `RosterOK`. -/
def run1Final (headers : List String) (reg0 : Registry) (rows : List Row) : Registry :=
  { students := reg0.students.map (finalStudent headers reg0 rows) ++
      creationsFrom headers reg0 reg0.nextSid (creationRows headers reg0 rows),
    vendors := reg0.vendors,
    nextSid := reg0.nextSid + (creationRows headers reg0 rows).length,
    nextVid := reg0.nextVid }

theorem resolveVendor_exact (vname vloc : String) (reg : Registry)
    (vmap : List (String × Nat)) (v : Nat)
    (h : mapLookup vmap (normKey vname) = some v) :
    resolveVendor vname vloc reg vmap = (v, reg, vmap) := by
  simp only [normKey] at h
  simp only [resolveVendor, h]

theorem settleStudent_email (headers : List String) (reg0 : Registry) (pr : List Row)
    (s : Student) : (settleStudent headers reg0 pr s).email = s.email := by
  unfold settleStudent
  cases pr.find? (fun r => rowEmail headers r = s.email) with
  | none => rfl
  | some r => rfl

theorem creationsFrom_length (headers : List String) (reg0 : Registry) (sid : Nat)
    (l : List Row) : (creationsFrom headers reg0 sid l).length = l.length := by
  induction l generalizing sid with
  | nil => rfl
  | cons r rs ih => simp [creationsFrom, ih]

theorem creationsFrom_append (headers : List String) (reg0 : Registry) (sid : Nat)
    (l1 l2 : List Row) :
    creationsFrom headers reg0 sid (l1 ++ l2) =
      creationsFrom headers reg0 sid l1 ++ creationsFrom headers reg0 (sid + l1.length) l2 := by
  induction l1 generalizing sid with
  | nil => simp [creationsFrom]
  | cons r rs ih =>
    simp only [List.cons_append, creationsFrom, List.length_cons]
    rw [show (rs.append l2) = rs ++ l2 from rfl, ih (sid + 1),
      show sid + 1 + rs.length = sid + (rs.length + 1) from by omega]

theorem creationsFrom_mem (headers : List String) (reg0 : Registry) (sid : Nat)
    (l : List Row) (x : Student) (hx : x ∈ creationsFrom headers reg0 sid l) :
    ∃ r ∈ l, ∃ m, x = mkNewStudent (extractData headers r) (vidOf headers reg0 r) m := by
  induction l generalizing sid with
  | nil => cases hx
  | cons r rs ih =>
    rcases List.mem_cons.mp hx with h | h
    · exact ⟨r, List.mem_cons_self r rs, sid, h⟩
    · obtain ⟨r', hr', m, hm⟩ := ih (sid + 1) h
      exact ⟨r', List.mem_cons_of_mem r hr', m, hm⟩

/-! ### C4: matcher characterization -/

/-- Under the roster hypotheses, a pre-existing student (as already
settled by earlier rows) matches row `r`'s email-or-roll lookup exactly
when its stored email is the row's stored-form email. -/
theorem rowMatches_settle (headers : List String) (reg0 : Registry) (done : List Row)
    (r : Row) (s : Student)
    (hne : ∀ r' ∈ done, rowEmail headers r' ≠ rowEmail headers r ∧
      rowRoll headers r' ≠ rowRoll headers r)
    (hfm : s.email = rowEmail headers r ∨ s.rollNumber = rowRoll headers r →
      s.email = rowEmail headers r ∧ s.rollNumber = rowRoll headers r) :
    rowMatches (extractData headers r) (settleStudent headers reg0 done s) =
      decide (s.email = rowEmail headers r) := by
  unfold settleStudent
  cases hf : done.find? (fun r' => rowEmail headers r' = s.email) with
  | none =>
    by_cases he : s.email = rowEmail headers r
    · simp only [rowEmail] at he
      simp [rowMatches, rowEmail, he]
    · by_cases hr : s.rollNumber = rowRoll headers r
      · exact absurd (hfm (Or.inr hr)).1 he
      · simp only [rowEmail, rowRoll] at he hr
        simp [rowMatches, rowEmail, he, hr]
  | some r' =>
    have hr'mem : r' ∈ done := List.mem_of_find?_eq_some hf
    have hr'email : rowEmail headers r' = s.email := by
      have := List.find?_some hf
      simpa using this
    have hse : s.email ≠ rowEmail headers r := by
      rw [← hr'email]
      exact (hne r' hr'mem).1
    have hroll : rowRoll headers r' ≠ rowRoll headers r := (hne r' hr'mem).2
    simp only [rowEmail, rowRoll] at hse hroll
    simp [rowMatches, rowEmail, updStudent, hse, hroll]

/-- A student created for an earlier row never matches row `r`'s lookup. -/
theorem rowMatches_creation (headers : List String) (r r'' : Row) (vid m : Nat)
    (hemail : rowEmail headers r'' ≠ rowEmail headers r)
    (hroll : rowRoll headers r'' ≠ rowRoll headers r) :
    rowMatches (extractData headers r)
      (mkNewStudent (extractData headers r'') vid m) = false := by
  simp only [rowEmail, rowRoll] at hemail hroll
  simp only [rowMatches, mkNewStudent]
  simp [hemail, hroll]

/-- Settling with one more row whose stored-form email differs is the same
settling. -/
theorem settleStudent_extend (headers : List String) (reg0 : Registry) (done : List Row)
    (r : Row) (s : Student) (hse : rowEmail headers r ≠ s.email) :
    settleStudent headers reg0 (done ++ [r]) s = settleStudent headers reg0 done s := by
  unfold settleStudent
  rw [List.find?_append]
  cases hf : done.find? (fun r' => rowEmail headers r' = s.email) with
  | some r' => rfl
  | none =>
    have : List.find? (fun r' => rowEmail headers r' = s.email) [r] = none := by
      simp [List.find?, hse]
    rw [this]
    rfl

/-- Settling with one more row whose stored-form email is the student's,
when no earlier row matched, applies that row's update. -/
theorem settleStudent_extend_hit (headers : List String) (reg0 : Registry) (done : List Row)
    (r : Row) (s : Student)
    (hnone : done.find? (fun r' => rowEmail headers r' = s.email) = none)
    (hhit : rowEmail headers r = s.email) :
    settleStudent headers reg0 (done ++ [r]) s =
      updStudent (extractData headers r) (vidOf headers reg0 r) s := by
  unfold settleStudent
  rw [List.find?_append, hnone]
  have : List.find? (fun r' => rowEmail headers r' = s.email) [r] = some r := by
    simp [List.find?, hhit]
  rw [this]
  rfl

/-! ### C4: one processing step preserves the run-1 specification -/

theorem processRow_stateSpec (headers : List String) (rows : List Row) (reg0 : Registry)
    (ok : RosterOK headers rows reg0) (done : List Row) (r : Row) (todo : List Row)
    (hsplit : rows = done ++ r :: todo) :
    processRow headers (stateSpec headers reg0 done) r =
      stateSpec headers reg0 (done ++ [r]) := by
  have hrmem : r ∈ rows := by
    rw [hsplit]; exact List.mem_append_right _ (List.mem_cons_self _ _)
  have hval := ok.valid r hrmem
  have hpairE : ∀ r' ∈ done, rowEmail headers r' ≠ rowEmail headers r := by
    have hp := ok.rowEmailsNodup
    rw [hsplit, List.pairwise_append] at hp
    exact fun r' h => hp.2.2 r' h r (List.mem_cons_self _ _)
  have hpairR : ∀ r' ∈ done, rowRoll headers r' ≠ rowRoll headers r := by
    have hp := ok.rowRollsNodup
    rw [hsplit, List.pairwise_append] at hp
    exact fun r' h => hp.2.2 r' h r (List.mem_cons_self _ _)
  obtain ⟨v, hv⟩ := Option.isSome_iff_exists.mp (ok.vendorExact r hrmem)
  have hvid : vidOf headers reg0 r = v := by simp [vidOf, hv]
  have hmatchero : ∀ s ∈ reg0.students,
      rowMatches (extractData headers r) (settleStudent headers reg0 done s) =
        decide (s.email = rowEmail headers r) := fun s hs =>
    rowMatches_settle headers reg0 done r s
      (fun r' h => ⟨hpairE r' h, hpairR r' h⟩) (ok.fullMatch r hrmem s hs)
  have hmapIdx : firstIdx (rowMatches (extractData headers r))
      (reg0.students.map (settleStudent headers reg0 done)) =
      firstIdx (fun s => decide (s.email = rowEmail headers r)) reg0.students := by
    rw [firstIdx_map]
    exact firstIdx_congr _ _ _ hmatchero
  have hcreFalse : ∀ x ∈ creationsFrom headers reg0 reg0.nextSid
      (creationRows headers reg0 done), rowMatches (extractData headers r) x = false := by
    intro x hx
    obtain ⟨r'', hr'', m, rfl⟩ := creationsFrom_mem _ _ _ _ _ hx
    have hr''done : r'' ∈ done := List.mem_of_mem_filter hr''
    exact rowMatches_creation headers r r'' _ m (hpairE r'' hr''done) (hpairR r'' hr''done)
  simp only [processRow, stateSpec, hval.1, hval.2, Bool.not_true, Bool.false_eq_true,
    if_false]
  rw [resolveVendor_exact (extractData headers r).vendor
    (extractData headers r).vendorLocation _ _ v hv]
  dsimp only
  cases hcase : firstIdx (fun s => decide (s.email = rowEmail headers r))
      reg0.students with
  | some j =>
    obtain ⟨⟨sj, hsj, hsjp⟩, hbefore⟩ := firstIdx_some_spec _ _ _ hcase
    have hsjmem : sj ∈ reg0.students := List.getElem?_mem hsj
    have hsjemail : sj.email = rowEmail headers r := of_decide_eq_true hsjp
    have hjlt : j < reg0.students.length := (List.getElem?_eq_some.mp hsj).1
    have hfi : firstIdx (rowMatches (extractData headers r))
        (reg0.students.map (settleStudent headers reg0 done) ++
          creationsFrom headers reg0 reg0.nextSid (creationRows headers reg0 done)) =
        some j :=
      firstIdx_append_some _ _ _ j (by rw [hmapIdx]; exact hcase)
    rw [hfi]
    have hcrEq : creationRows headers reg0 (done ++ [r]) = creationRows headers reg0 done := by
      unfold creationRows
      rw [List.filter_append]
      have hnew : isNewRow headers reg0 r = false := by
        have hany : reg0.students.any
            (fun s => s.email = rowEmail headers r) = true :=
          List.any_eq_true.mpr ⟨sj, hsjmem, by simp [hsjemail]⟩
        simp [isNewRow, hany]
      simp [List.filter, hnew]
    have hnone : done.find?
        (fun r' => rowEmail headers r' = sj.email) = none := by
      rw [List.find?_eq_none]
      intro r' hr'
      simp only [decide_eq_true_eq]
      rw [hsjemail]
      exact hpairE r' hr'
    have hstudents : modifyIdx (updStudent (extractData headers r) v) j
        (reg0.students.map (settleStudent headers reg0 done) ++
          creationsFrom headers reg0 reg0.nextSid (creationRows headers reg0 done)) =
        reg0.students.map (settleStudent headers reg0 (done ++ [r])) ++
          creationsFrom headers reg0 reg0.nextSid (creationRows headers reg0 done) := by
      rw [modifyIdx_append_left _ _ _ _ (by rw [List.length_map]; exact hjlt)]
      congr 1
      apply List.ext_getElem?
      intro i
      rw [modifyIdx_getElem?]
      by_cases hij : i = j
      · subst hij
        rw [List.getElem?_map, List.getElem?_map, hsj]
        have h1 : settleStudent headers reg0 done sj = sj := by
          unfold settleStudent; rw [hnone]
        have h2 : settleStudent headers reg0 (done ++ [r]) sj =
            updStudent (extractData headers r) (vidOf headers reg0 r) sj :=
          settleStudent_extend_hit _ _ _ _ _ hnone hsjemail.symm
        simp [h1, h2, hvid]
      · rw [if_neg hij, List.getElem?_map, List.getElem?_map]
        cases hsi : reg0.students[i]? with
        | none => rfl
        | some si =>
          have hsimem : si ∈ reg0.students := List.getElem?_mem hsi
          have hilt : i < reg0.students.length := (List.getElem?_eq_some.mp hsi).1
          have hsine : rowEmail headers r ≠ si.email := by
            intro hcontra
            rcases Nat.lt_or_ge i j with hlt | hge
            · obtain ⟨x, hx, hpx⟩ := hbefore i hlt
              rw [hsi] at hx
              cases hx
              rw [← hcontra] at hpx
              simp at hpx
            · have hjlt' : j < i := Nat.lt_of_le_of_ne hge (fun h => hij h.symm)
              have hR := List.pairwise_iff_getElem.mp ok.regEmailsNodup j i hjlt hilt hjlt'
              have hsj' : reg0.students[j] = sj := by
                have := List.getElem?_eq_some.mp hsj
                exact this.2
              have hsi' : reg0.students[i] = si := (List.getElem?_eq_some.mp hsi).2
              rw [hsj', hsi'] at hR
              exact hR (hsjemail.trans hcontra)
          simp only [Option.map_some']
          rw [settleStudent_extend headers reg0 done r si hsine]
    dsimp only
    rw [hstudents, hcrEq]
    simp [stateSpec, List.length_append]
  | none =>
    have hmapnone : firstIdx (rowMatches (extractData headers r))
        (reg0.students.map (settleStudent headers reg0 done)) = none := by
      rw [hmapIdx]; exact hcase
    have hfi : firstIdx (rowMatches (extractData headers r))
        (reg0.students.map (settleStudent headers reg0 done) ++
          creationsFrom headers reg0 reg0.nextSid (creationRows headers reg0 done)) =
        none := by
      rw [firstIdx_append_none _ _ _ hmapnone, (firstIdx_none_iff _ _).mpr hcreFalse]
      rfl
    rw [hfi]
    dsimp only
    have hregnone : ∀ s ∈ reg0.students, s.email ≠ rowEmail headers r := by
      intro s hs
      have := (firstIdx_none_iff _ _).mp hcase s hs
      simpa using this
    have hany : (reg0.students.map (settleStudent headers reg0 done) ++
        creationsFrom headers reg0 reg0.nextSid (creationRows headers reg0 done)).any
        (fun s => s.email = lowerStr (extractData headers r).email) = false := by
      rw [List.any_eq_false]
      intro x hx
      rcases List.mem_append.mp hx with h | h
      · obtain ⟨s, hs, rfl⟩ := List.mem_map.mp h
        rw [settleStudent_email]
        simpa using hregnone s hs
      · obtain ⟨r'', hr'', m, rfl⟩ := creationsFrom_mem _ _ _ _ _ h
        have hr''done : r'' ∈ done := List.mem_of_mem_filter hr''
        simp only [mkNewStudent]
        simpa using hpairE r'' hr''done
    rw [hany]
    have hnew : isNewRow headers reg0 r = true := by
      simp only [isNewRow, Bool.not_eq_true']
      rw [List.any_eq_false]
      intro s hs
      simpa using hregnone s hs
    have hcrEq : creationRows headers reg0 (done ++ [r]) =
        creationRows headers reg0 done ++ [r] := by
      unfold creationRows
      rw [List.filter_append]
      simp [List.filter, hnew]
    have hsettle_same : reg0.students.map (settleStudent headers reg0 (done ++ [r])) =
        reg0.students.map (settleStudent headers reg0 done) := by
      apply List.map_congr_left
      intro s hs
      exact settleStudent_extend headers reg0 done r s (fun h => hregnone s hs h.symm)
    simp only [Bool.false_eq_true, if_false, stateSpec, hcrEq, hsettle_same,
      creationsFrom_append, creationsFrom_length]
    rw [show creationsFrom headers reg0
        (reg0.nextSid + (creationRows headers reg0 done).length) [r] =
        [mkNewStudent (extractData headers r) (vidOf headers reg0 r)
          (reg0.nextSid + (creationRows headers reg0 done).length)] from rfl]
    rw [hvid]
    simp [List.append_assoc, List.length_append]
    omega

/-! ### C4: the first run computes `run1Final` -/

theorem stateSpec_nil (headers : List String) (reg0 : Registry) :
    stateSpec headers reg0 [] = initRunState reg0 := by
  unfold stateSpec initRunState
  have h1 : reg0.students.map (settleStudent headers reg0 []) = reg0.students := by
    rw [List.map_congr_left (fun s _ => by unfold settleStudent; rfl)]
    exact List.map_id reg0.students
  have h2 : creationRows headers reg0 [] = [] := rfl
  rw [h1, h2]
  simp [creationsFrom]

theorem runRows_stateSpec (headers : List String) (rows : List Row) (reg0 : Registry)
    (ok : RosterOK headers rows reg0) :
    ∀ todo done, rows = done ++ todo →
      runRows headers (stateSpec headers reg0 done) todo = stateSpec headers reg0 rows := by
  intro todo
  induction todo with
  | nil =>
    intro done hsplit
    rw [List.append_nil] at hsplit
    rw [← hsplit]
    rfl
  | cons r todo' ih =>
    intro done hsplit
    show runRows headers (processRow headers (stateSpec headers reg0 done) r) todo' =
      stateSpec headers reg0 rows
    rw [processRow_stateSpec headers rows reg0 ok done r todo' hsplit]
    exact ih (done ++ [r]) (by rw [hsplit, List.append_assoc]; rfl)

theorem runRows_run1 (headers : List String) (rows : List Row) (reg0 : Registry)
    (ok : RosterOK headers rows reg0) :
    runRows headers (initRunState reg0) rows = stateSpec headers reg0 rows := by
  rw [← stateSpec_nil headers reg0]
  exact runRows_stateSpec headers rows reg0 ok rows [] rfl

theorem findHeader_email (headers : List String) (eh : String)
    (h : emailHeaderOf headers = some eh) :
    findHeader headers possibleEmailHeaders = eh := by
  unfold emailHeaderOf at h
  unfold findHeader
  rw [h]

theorem csvEmails_eq_map (headers : List String) (rows : List Row)
    (hdr : (emailHeaderOf headers).isSome)
    (hval : ∀ r ∈ rows, (extractData headers r).email ≠ "" ∧
      trimStr (extractData headers r).email = (extractData headers r).email) :
    csvEmails headers rows = rows.map (fun r => (extractData headers r).email) := by
  obtain ⟨eh, heh⟩ := Option.isSome_iff_exists.mp hdr
  have hfield : ∀ r : Row, r ∈ rows → getField r eh = (extractData headers r).email := by
    intro r _
    unfold extractData
    rw [findHeader_email headers eh heh]
  unfold csvEmails
  rw [heh]
  dsimp only
  induction rows with
  | nil => rfl
  | cons r rs ih =>
    have hr := hval r (List.mem_cons_self r rs)
    have hfr := hfield r (List.mem_cons_self r rs)
    rw [List.filterMap_cons]
    rw [hfr, hr.2, if_neg hr.1, if_neg hr.1, List.map_cons]
    dsimp only
    congr 1
    exact ih (fun x hx => hval x (List.mem_cons_of_mem r hx))
      (fun x hx => hfield x (List.mem_cons_of_mem r hx))

theorem contains_iff_mem (l : List String) (x : String) : l.contains x = true ↔ x ∈ l := by
  simp

/-- A sweep that has nothing to deactivate returns the registry unchanged
and reports zero (the `$nin` elements are compared after the lowercase
setter cast). -/
theorem sweep_id (emails : List String) (reg : Registry)
    (h : ∀ s ∈ reg.students, s.isActive = true →
      (emails.map lowerStr).contains s.email = true) :
    sweep emails reg = (reg, 0) := by
  unfold sweep
  by_cases he : emails.isEmpty
  · rw [if_pos he]
  · rw [if_neg he]
    have hmap : reg.students.map (fun s =>
        if s.isActive && !(emails.map lowerStr).contains s.email
        then { s with isActive := false } else s) =
        reg.students := by
      rw [List.map_congr_left (fun s hs => ?_)]
      · exact List.map_id reg.students
      · by_cases ha : s.isActive
        · rw [h s hs ha]
          simp
        · simp [ha]
    have hcount : reg.students.countP
        (fun s => s.isActive && !(emails.map lowerStr).contains s.email) = 0 := by
      rw [List.countP_eq_zero]
      intro s hs
      by_cases ha : s.isActive
      · rw [h s hs ha]
        simp
      · simp [ha]
    rw [hmap, hcount]

theorem updStudent_email (d : StudentData) (vid : Nat) (s : Student) :
    (updStudent d vid s).email = s.email := rfl

theorem updStudent_isActive (d : StudentData) (vid : Nat) (s : Student) :
    (updStudent d vid s).isActive = true := rfl

/-- The `$nin` array after the elementwise lowercase setter cast is the
list of stored-form row emails. -/
theorem map_lower_emails (headers : List String) (rows : List Row) :
    (rows.map (fun r => (extractData headers r).email)).map lowerStr =
      rows.map (rowEmail headers) := by
  rw [List.map_map]
  rfl

theorem sweep_stateSpec (headers : List String) (rows : List Row) (reg0 : Registry)
    (hne : rows ≠ []) :
    (sweep (rows.map (fun r => (extractData headers r).email))
      (stateSpec headers reg0 rows).reg).1 = run1Final headers reg0 rows := by
  have he : (rows.map (fun r => (extractData headers r).email)).isEmpty = false := by
    cases rows with
    | nil => exact absurd rfl hne
    | cons a b => rfl
  have hsw : ∀ s ∈ reg0.students,
      (if (settleStudent headers reg0 rows s).isActive &&
          !((rows.map (fun r => (extractData headers r).email)).map lowerStr).contains
            (settleStudent headers reg0 rows s).email
        then { settleStudent headers reg0 rows s with isActive := false }
        else settleStudent headers reg0 rows s) = finalStudent headers reg0 rows s := by
    intro s _
    rw [map_lower_emails]
    unfold settleStudent finalStudent
    cases hf : rows.find? (fun r => rowEmail headers r = s.email) with
    | some r =>
      have hrmem : r ∈ rows := List.mem_of_find?_eq_some hf
      have hre : rowEmail headers r = s.email := by
        have := List.find?_some hf
        simpa using this
      have hcont : (rows.map (rowEmail headers)).contains
          (updStudent (extractData headers r) (vidOf headers reg0 r) s).email = true := by
        rw [updStudent_email, contains_iff_mem]
        exact List.mem_map.mpr ⟨r, hrmem, hre⟩
      rw [hcont, updStudent_isActive]
      simp
    | none =>
      have hnotin : (rows.map (rowEmail headers)).contains s.email = false := by
        rw [Bool.eq_false_iff]
        intro hcont
        obtain ⟨r, hrmem, hre⟩ := List.mem_map.mp ((contains_iff_mem _ _).mp hcont)
        exact absurd hre (by
          have := List.find?_eq_none.mp hf r hrmem
          simpa using this)
      rw [hnotin]
      cases ha : s.isActive <;> simp [ha]
  have hcre : ∀ c ∈ creationsFrom headers reg0 reg0.nextSid (creationRows headers reg0 rows),
      (if c.isActive &&
          !((rows.map (fun r => (extractData headers r).email)).map lowerStr).contains c.email
        then { c with isActive := false } else c) = c := by
    intro c hc
    rw [map_lower_emails]
    obtain ⟨r'', hr'', m, rfl⟩ := creationsFrom_mem _ _ _ _ _ hc
    have hr''rows : r'' ∈ rows := List.mem_of_mem_filter hr''
    have hcont : (rows.map (rowEmail headers)).contains
        (mkNewStudent (extractData headers r'') (vidOf headers reg0 r'') m).email = true := by
      rw [show (mkNewStudent (extractData headers r'') (vidOf headers reg0 r'') m).email =
          rowEmail headers r'' from rfl, contains_iff_mem]
      exact List.mem_map.mpr ⟨r'', hr''rows, rfl⟩
    rw [hcont]
    simp
  unfold sweep
  rw [he]
  simp only [Bool.false_eq_true, if_false]
  have hstudents : ((stateSpec headers reg0 rows).reg.students.map (fun s =>
      if s.isActive &&
          !((rows.map (fun r => (extractData headers r).email)).map lowerStr).contains s.email
        then { s with isActive := false } else s)) =
      reg0.students.map (finalStudent headers reg0 rows) ++
        creationsFrom headers reg0 reg0.nextSid (creationRows headers reg0 rows) := by
    show ((reg0.students.map (settleStudent headers reg0 rows) ++
        creationsFrom headers reg0 reg0.nextSid (creationRows headers reg0 rows)).map _) = _
    rw [List.map_append, List.map_map]
    congr 1
    · exact List.map_congr_left (fun s hs => hsw s hs)
    · rw [List.map_congr_left (fun c hc => hcre c hc)]
      exact List.map_id _
  rw [hstudents]
  rfl

/-! ### C4: the second run is a fixed point -/

theorem pairwise_fn_unique {α β : Type} (f : α → β) (l : List α)
    (h : l.Pairwise (fun a b => f a ≠ f b)) :
    ∀ a ∈ l, ∀ b ∈ l, f a = f b → a = b := by
  induction l with
  | nil => intro a ha; cases ha
  | cons x xs ih =>
    intro a ha b hb hfab
    rcases List.mem_cons.mp ha with rfl | ha' <;> rcases List.mem_cons.mp hb with rfl | hb'
    · rfl
    · exact absurd hfab ((List.pairwise_cons.mp h).1 b hb')
    · exact absurd hfab.symm ((List.pairwise_cons.mp h).1 a ha')
    · exact ih (List.pairwise_cons.mp h).2 a ha' b hb' hfab

theorem updStudent_idem (d : StudentData) (vid : Nat) (s : Student) :
    updStudent d vid (updStudent d vid s) = updStudent d vid s := rfl

theorem updStudent_mkNew (d : StudentData) (vid m : Nat) :
    updStudent d vid (mkNewStudent d vid m) = mkNewStudent d vid m := rfl

theorem finalStudent_email (headers : List String) (reg0 : Registry) (rows : List Row)
    (s : Student) : (finalStudent headers reg0 rows s).email = s.email := by
  unfold finalStudent
  cases rows.find? (fun r => rowEmail headers r = s.email) with
  | some r => rfl
  | none => cases s.isActive <;> simp

theorem creationsFrom_mem_of (headers : List String) (reg0 : Registry) (sid : Nat)
    (l : List Row) (r : Row) (hr : r ∈ l) :
    ∃ m, mkNewStudent (extractData headers r) (vidOf headers reg0 r) m ∈
      creationsFrom headers reg0 sid l := by
  induction l generalizing sid with
  | nil => cases hr
  | cons a as ih =>
    rcases List.mem_cons.mp hr with rfl | hr'
    · exact ⟨sid, List.mem_cons_self _ _⟩
    · obtain ⟨m, hm⟩ := ih (sid + 1) hr'
      exact ⟨m, List.mem_cons_of_mem _ hm⟩

/-- After a full run, a pre-existing student matches a row's lookup
exactly when its email is that row's stored-form email. -/
theorem rowMatches_final (headers : List String) (rows : List Row) (reg0 : Registry)
    (ok : RosterOK headers rows reg0) (r : Row) (hr : r ∈ rows) (s : Student)
    (hs : s ∈ reg0.students) :
    rowMatches (extractData headers r) (finalStudent headers reg0 rows s) =
      decide (s.email = rowEmail headers r) := by
  have huniqE : ∀ a ∈ rows, ∀ b ∈ rows,
      rowEmail headers a = rowEmail headers b → a = b :=
    pairwise_fn_unique _ rows ok.rowEmailsNodup
  have huniqR : ∀ a ∈ rows, ∀ b ∈ rows,
      rowRoll headers a = rowRoll headers b → a = b :=
    pairwise_fn_unique _ rows ok.rowRollsNodup
  unfold finalStudent
  cases hf : rows.find? (fun r' => rowEmail headers r' = s.email) with
  | some r' =>
    have hr'mem : r' ∈ rows := List.mem_of_find?_eq_some hf
    have hr'e : rowEmail headers r' = s.email := by
      have := List.find?_some hf
      simpa using this
    by_cases heq : r' = r
    · subst heq
      have hse : s.email = rowEmail headers r' := hr'e.symm
      simp only [rowEmail] at hse
      simp [rowMatches, rowEmail, updStudent, hse]
    · have he : s.email ≠ rowEmail headers r := by
        intro hcon
        exact heq (huniqE r' hr'mem r hr (hr'e.trans hcon))
      have hroll : rowRoll headers r' ≠ rowRoll headers r := by
        intro hcon
        exact heq (huniqR r' hr'mem r hr hcon)
      simp only [rowEmail, rowRoll] at he hroll
      simp [rowMatches, rowEmail, updStudent, he, hroll]
  | none =>
    have he : s.email ≠ rowEmail headers r := by
      intro hcon
      have := List.find?_eq_none.mp hf r hr
      simp [hcon] at this
    have hroll : s.rollNumber ≠ rowRoll headers r := by
      intro hcon
      exact he (ok.fullMatch r hr s hs (Or.inr hcon)).1
    simp only [rowEmail, rowRoll] at he hroll
    cases ha : s.isActive <;> simp [rowMatches, rowEmail, ha, he, hroll]

theorem processRow_run2 (headers : List String) (rows : List Row) (reg0 : Registry)
    (ok : RosterOK headers rows reg0) (r : Row) (hr : r ∈ rows) (st : RunState)
    (hreg : st.reg = run1Final headers reg0 rows)
    (hmap : st.vmap = buildVendorMap reg0.vendors) :
    (processRow headers st r).reg = run1Final headers reg0 rows ∧
    (processRow headers st r).vmap = buildVendorMap reg0.vendors := by
  have huniqE : ∀ a ∈ rows, ∀ b ∈ rows,
      rowEmail headers a = rowEmail headers b → a = b :=
    pairwise_fn_unique _ rows ok.rowEmailsNodup
  have huniqR : ∀ a ∈ rows, ∀ b ∈ rows,
      rowRoll headers a = rowRoll headers b → a = b :=
    pairwise_fn_unique _ rows ok.rowRollsNodup
  have hval := ok.valid r hr
  obtain ⟨v, hv⟩ := Option.isSome_iff_exists.mp (ok.vendorExact r hr)
  have hvid : vidOf headers reg0 r = v := by simp [vidOf, hv]
  have hfixed : ∀ x ∈ (run1Final headers reg0 rows).students,
      rowMatches (extractData headers r) x = true →
      updStudent (extractData headers r) v x = x := by
    intro x hx hpx
    rcases List.mem_append.mp hx with h | h
    · obtain ⟨s, hs, rfl⟩ := List.mem_map.mp h
      rw [rowMatches_final headers rows reg0 ok r hr s hs] at hpx
      have hse : s.email = rowEmail headers r := of_decide_eq_true hpx
      have hfind : rows.find? (fun r' => rowEmail headers r' = s.email) =
          some r := by
        apply find?_eq_some_of_unique _ _ _ hr
        · simp [hse]
        · intro b hb hpb
          apply huniqE b hb r hr
          have : rowEmail headers b = s.email := by simpa using hpb
          rw [this, hse]
      have hfinal_eq : finalStudent headers reg0 rows s =
          updStudent (extractData headers r) (vidOf headers reg0 r) s := by
        unfold finalStudent
        rw [hfind]
      rw [hfinal_eq, hvid]
      exact updStudent_idem _ _ _
    · obtain ⟨r'', hr''c, m, rfl⟩ := creationsFrom_mem _ _ _ _ _ h
      have hr''rows : r'' ∈ rows := List.mem_of_mem_filter hr''c
      have hr''r : r'' = r := by
        simp only [rowMatches, mkNewStudent, Bool.or_eq_true, decide_eq_true_eq] at hpx
        rcases hpx with h' | h'
        · exact huniqE r'' hr''rows r hr h'
        · exact huniqR r'' hr''rows r hr h'
      subst hr''r
      rw [hvid.symm]
      exact updStudent_mkNew _ _ _
  have hexists : firstIdx (rowMatches (extractData headers r))
      (run1Final headers reg0 rows).students ≠ none := by
    intro hnone
    have hall := (firstIdx_none_iff _ _).mp hnone
    cases hcase : firstIdx (fun s => decide (s.email = rowEmail headers r))
        reg0.students with
    | some j =>
      obtain ⟨⟨sj, hsj, hsjp⟩, _⟩ := firstIdx_some_spec _ _ _ hcase
      have hsjmem : sj ∈ reg0.students := List.getElem?_mem hsj
      have hmem : finalStudent headers reg0 rows sj ∈
          (run1Final headers reg0 rows).students :=
        List.mem_append.mpr (Or.inl (List.mem_map.mpr ⟨sj, hsjmem, rfl⟩))
      have := hall _ hmem
      rw [rowMatches_final headers rows reg0 ok r hr sj hsjmem] at this
      rw [this] at hsjp
      cases hsjp
    | none =>
      have hnew : isNewRow headers reg0 r = true := by
        have hanyf : reg0.students.any
            (fun s => s.email = rowEmail headers r) = false := by
          rw [List.any_eq_false]
          intro s hs
          have := (firstIdx_none_iff _ _).mp hcase s hs
          simpa using this
        simp [isNewRow, hanyf]
      have hrcre : r ∈ creationRows headers reg0 rows :=
        List.mem_filter.mpr ⟨hr, hnew⟩
      obtain ⟨m, hm⟩ := creationsFrom_mem_of headers reg0 reg0.nextSid _ r hrcre
      have hmem : mkNewStudent (extractData headers r) (vidOf headers reg0 r) m ∈
          (run1Final headers reg0 rows).students := List.mem_append.mpr (Or.inr hm)
      have := hall _ hmem
      simp [rowMatches, mkNewStudent] at this
  simp only [processRow, hval.1, hval.2, Bool.not_true, Bool.false_eq_true, if_false]
  rw [hreg, hmap, resolveVendor_exact (extractData headers r).vendor
    (extractData headers r).vendorLocation _ _ v hv]
  dsimp only
  cases hfi : firstIdx (rowMatches (extractData headers r))
      (run1Final headers reg0 rows).students with
  | none => exact absurd hfi hexists
  | some i =>
    have hmod : modifyIdx (updStudent (extractData headers r) v) i
        (run1Final headers reg0 rows).students =
        (run1Final headers reg0 rows).students := by
      apply modifyIdx_eq_self
      intro x hx
      obtain ⟨⟨y, hy, hpy⟩, _⟩ := firstIdx_some_spec _ _ _ hfi
      have hxy : y = x := by rw [hy] at hx; exact Option.some.inj hx
      subst hxy
      exact hfixed y (List.getElem?_mem hy) hpy
    dsimp only
    rw [hmod]
    exact ⟨rfl, rfl⟩

theorem runRows_run2 (headers : List String) (rows : List Row) (reg0 : Registry)
    (ok : RosterOK headers rows reg0) :
    ∀ (todo : List Row), (∀ r ∈ todo, r ∈ rows) → ∀ st : RunState,
      st.reg = run1Final headers reg0 rows →
      st.vmap = buildVendorMap reg0.vendors →
      (runRows headers st todo).reg = run1Final headers reg0 rows := by
  intro todo
  induction todo with
  | nil => intro _ st hreg _; exact hreg
  | cons r rs ih =>
    intro hmem st hreg hmap
    have hstep := processRow_run2 headers rows reg0 ok r (hmem r (List.mem_cons_self _ _))
      st hreg hmap
    exact ih (fun x hx => hmem x (List.mem_cons_of_mem r hx)) _ hstep.1 hstep.2

theorem run1Final_active_emails (headers : List String) (rows : List Row) (reg0 : Registry) :
    ∀ s ∈ (run1Final headers reg0 rows).students, s.isActive = true →
      (rows.map (rowEmail headers)).contains s.email = true := by
  intro s hs ha
  rcases List.mem_append.mp hs with h | h
  · obtain ⟨s0, hs0, rfl⟩ := List.mem_map.mp h
    rw [finalStudent_email, contains_iff_mem]
    cases hf : rows.find? (fun r' => rowEmail headers r' = s0.email) with
    | some r' =>
      refine List.mem_map.mpr ⟨r', List.mem_of_find?_eq_some hf, ?_⟩
      have := List.find?_some hf
      simpa using this
    | none =>
      exfalso
      unfold finalStudent at ha
      rw [hf] at ha
      dsimp only at ha
      by_cases has0 : s0.isActive = true
      · rw [if_pos has0] at ha
        simp at ha
      · rw [if_neg has0] at ha
        exact has0 ha
  · obtain ⟨r'', hr''c, m, rfl⟩ := creationsFrom_mem _ _ _ _ _ h
    have hr''rows : r'' ∈ rows := List.mem_of_mem_filter hr''c
    rw [show (mkNewStudent (extractData headers r'') (vidOf headers reg0 r'') m).email =
        rowEmail headers r'' from rfl, contains_iff_mem]
    exact List.mem_map.mpr ⟨r'', hr''rows, rfl⟩

theorem csvEmails_nil (headers : List String) : csvEmails headers [] = [] := by
  unfold csvEmails
  cases emailHeaderOf headers <;> rfl

/-- C4, amended.  Under the `RosterOK` hypotheses (valid rows, emails
without surrounding whitespace as the CSV parser guarantees,
pairwise-distinct stored-form row emails and roll numbers, distinct
registry emails, no email-vs-roll aliasing against the existing registry,
and exact vendor-map resolution for every row), re-running the roster
upload leaves the registry in exactly the state the first run produced,
deactivates zero students, and every roster row's student is present —
under its stored-form email — and active after the second run. -/
theorem roster_import_idempotent (headers : List String) (rows : List Row) (reg0 : Registry)
    (ok : RosterOK headers rows reg0) :
    (runImport headers rows (runImport headers rows reg0).1).1 =
      (runImport headers rows reg0).1 ∧
    (runImport headers rows (runImport headers rows reg0).1).2.deactivatedCount = 0 ∧
    ∀ r ∈ rows, ∃ s ∈ (runImport headers rows (runImport headers rows reg0).1).1.students,
      s.email = rowEmail headers r ∧ s.isActive = true := by
  by_cases hne : rows = []
  · subst hne
    have himp : ∀ reg : Registry, runImport headers [] reg =
        (reg, { totalRows := 0, processed := 0, errorsCount := 0,
                deactivatedCount := 0, errorDetails := [] }) := by
      intro reg
      simp only [runImport, csvEmails_nil]
      simp [runRows, sweep, initRunState]
    simp [himp]
  · have hne' : ∀ r ∈ rows, (extractData headers r).email ≠ "" := by
      intro r h hcon
      have hb := (ok.valid r h).1
      unfold rowBlank at hb
      rw [hcon] at hb
      simp at hb
    have hemails : csvEmails headers rows =
        rows.map (fun r => (extractData headers r).email) :=
      csvEmails_eq_map headers rows ok.hdr
        (fun r h => ⟨hne' r h, ok.emailsTrimmed r h⟩)
    have hrun1 : (runImport headers rows reg0).1 = run1Final headers reg0 rows := by
      simp only [runImport]
      rw [runRows_run1 headers rows reg0 ok, hemails]
      exact sweep_stateSpec headers rows reg0 hne
    have hreg2 : (runRows headers (initRunState (run1Final headers reg0 rows)) rows).reg =
        run1Final headers reg0 rows :=
      runRows_run2 headers rows reg0 ok rows (fun _ h => h) _ rfl rfl
    have hsweep2 : sweep (csvEmails headers rows)
        (runRows headers (initRunState (run1Final headers reg0 rows)) rows).reg =
        (run1Final headers reg0 rows, 0) := by
      rw [hreg2, hemails]
      apply sweep_id
      intro s hs ha
      rw [map_lower_emails]
      exact run1Final_active_emails headers rows reg0 s hs ha
    have h21 : (runImport headers rows (runImport headers rows reg0).1).1 =
        run1Final headers reg0 rows := by
      rw [hrun1]
      simp only [runImport]
      rw [hsweep2]
    have h22 : (runImport headers rows (runImport headers rows reg0).1).2.deactivatedCount
        = 0 := by
      rw [hrun1]
      simp only [runImport]
      rw [hsweep2]
    refine ⟨h21.trans hrun1.symm, h22, ?_⟩
    intro r hr
    rw [h21]
    have huniqE : ∀ a ∈ rows, ∀ b ∈ rows,
        rowEmail headers a = rowEmail headers b → a = b :=
      pairwise_fn_unique _ rows ok.rowEmailsNodup
    cases hcase : firstIdx (fun s => decide (s.email = rowEmail headers r))
        reg0.students with
    | some j =>
      obtain ⟨⟨sj, hsj, hsjp⟩, _⟩ := firstIdx_some_spec _ _ _ hcase
      have hsjmem : sj ∈ reg0.students := List.getElem?_mem hsj
      have hse : sj.email = rowEmail headers r := of_decide_eq_true hsjp
      have hfind : rows.find? (fun r' => rowEmail headers r' = sj.email) =
          some r := by
        apply find?_eq_some_of_unique _ _ _ hr
        · simp [hse]
        · intro b hb hpb
          apply huniqE b hb r hr
          have : rowEmail headers b = sj.email := by simpa using hpb
          rw [this, hse]
      refine ⟨finalStudent headers reg0 rows sj,
        List.mem_append.mpr (Or.inl (List.mem_map.mpr ⟨sj, hsjmem, rfl⟩)), ?_, ?_⟩
      · rw [finalStudent_email]
        exact hse
      · unfold finalStudent
        rw [hfind]
        rfl
    | none =>
      have hnew : isNewRow headers reg0 r = true := by
        have hanyf : reg0.students.any
            (fun s => s.email = rowEmail headers r) = false := by
          rw [List.any_eq_false]
          intro s hs
          have := (firstIdx_none_iff _ _).mp hcase s hs
          simpa using this
        simp [isNewRow, hanyf]
      obtain ⟨m, hm⟩ := creationsFrom_mem_of headers reg0 reg0.nextSid _ r
        (List.mem_filter.mpr ⟨hr, hnew⟩)
      exact ⟨mkNewStudent (extractData headers r) (vidOf headers reg0 r) m,
        List.mem_append.mpr (Or.inr hm), rfl, rfl⟩

/-! ### C4: the claim fails on the code as stated -/

/-- A roster row whose roll number matches the pre-existing student
`sJane` while its email differs (the dual email-or-roll dedup rule merges
them). -/
def c4RowRoll : Row :=
  [("Full Name", "Jane Doe"), ("Email Address", "new@sst.scaler.com"),
   ("Batch", "2024002"), ("Vendor", "Cafeteria B")]

def c4RegAB : Registry :=
  { students := [],
    vendors := [{ vid := 1, name := "AB", location := "L", isActive := true }],
    nextSid := 100, nextVid := 100 }

def c4RowSpace : Row :=
  [("Full Name", "P One"), ("Email Address", "p1@sst.scaler.com"),
   ("Batch", "r1"), ("Vendor", "A B")]

def c4RowNoSpace : Row :=
  [("Full Name", "P Two"), ("Email Address", "p2@sst.scaler.com"),
   ("Batch", "r2"), ("Vendor", "AB")]

/-- C4, counterexample.  Two concrete executions refute the claim as
stated.  (1) A row whose roll number matches an existing student with a
different email (`c4RowRoll` against `sJane`) is processed without error
and reactivates that student, but the deactivation sweep — which compares
emails only — deactivates it again, so the second run still deactivates
one student and the roster's own student ends up inactive, against the
claim's zero-deactivation outcome.  (2) Two rows naming vendors "A B" and
"AB" produce different vendor assignments in the first and second run:
the second run rebuilds the vendor map from the now-persisted vendors,
and the whitespace-stripped alias of the auto-created "A B" shadows the
exact key of the pre-existing "AB", so the final registries differ. -/
theorem roster_import_not_idempotent :
    ((runImport wHeaders [c4RowRoll] wRegistry).2.errorsCount = 0 ∧
     (runImport wHeaders [c4RowRoll] wRegistry).2.processed = 1 ∧
     (runImport wHeaders [c4RowRoll]
       (runImport wHeaders [c4RowRoll] wRegistry).1).2.deactivatedCount = 1 ∧
     (runImport wHeaders [c4RowRoll]
       (runImport wHeaders [c4RowRoll] wRegistry).1).1.students.map Student.isActive =
       [false]) ∧
    ((runImport wHeaders [c4RowSpace, c4RowNoSpace] c4RegAB).2.errorsCount = 0 ∧
     (runImport wHeaders [c4RowSpace, c4RowNoSpace]
         (runImport wHeaders [c4RowSpace, c4RowNoSpace] c4RegAB).1).1 ≠
       (runImport wHeaders [c4RowSpace, c4RowNoSpace] c4RegAB).1) := by
  refine ⟨⟨by decide, by decide, by decide, by decide⟩, ⟨by decide, by decide⟩⟩

theorem roster_import_idempotent_witness :
    (runImport wHeaders [wRowGood] (runImport wHeaders [wRowGood] wRegistry).1).1 =
      (runImport wHeaders [wRowGood] wRegistry).1 ∧
    (runImport wHeaders [wRowGood]
      (runImport wHeaders [wRowGood] wRegistry).1).2.deactivatedCount = 0 ∧
    ∃ s ∈ (runImport wHeaders [wRowGood]
        (runImport wHeaders [wRowGood] wRegistry).1).1.students,
      s.email = "jane@sst.scaler.com" ∧ s.isActive = true := by
  have h := roster_import_idempotent wHeaders [wRowGood] wRegistry
    ⟨by decide, by decide, by decide, by decide, by decide, by decide, by decide, by decide⟩
  refine ⟨h.1, h.2.1, ?_⟩
  obtain ⟨s, hs, he, ha⟩ := h.2.2 wRowGood (List.mem_cons_self _ _)
  exact ⟨s, hs, by rw [he]; decide, ha⟩

end Scan2Go
